import Mathlib

/-!
Verification of the text pre/post-processing, evaluation and batch
orchestration core of the `fastandcolab` backend.

Python strings are modelled as Lean `String` (a list of Unicode code
points, matching Python's character-based indexing and `len`).  The
character-level workers operate on `List Char`; each public function of
the source keeps its Python name and wraps its character-level worker.
Numeric scores coming back from the external metric libraries are
modelled as rationals; wall-clock timing fields are outside the
embedding and omitted.
-/

namespace FastColab

/-! ## Python string primitives -/

/-- Characters stripped by Python's `str.strip()` / matched by `\s`
(ASCII whitespace plus the common Unicode whitespace code points;
exotic `Zs` code points beyond U+00A0 are not modelled, no input in
this development contains them). -/
def pyIsSpace (c : Char) : Bool :=
  c == ' ' || c == '\t' || c == '\n' || c == '\r' || c == '\x0b' || c == '\x0c' ||
  c == '\x1c' || c == '\x1d' || c == '\x1e' || c == '\x1f' || c == '\x85' || c == '\xa0'

/-- Python `str.strip()`: drop leading and trailing whitespace. -/
def pyStrip (l : List Char) : List Char :=
  List.rdropWhile pyIsSpace (l.dropWhile pyIsSpace)

/-- Python `str.split()` (no argument): split on whitespace runs and
drop the empty pieces. -/
def pySplitWs (l : List Char) : List (List Char) :=
  (l.splitOnP pyIsSpace).filter (· ≠ [])

/-- `re.sub(p+, r, text)` for a single-character class `p`: every
maximal run of characters satisfying `p` is replaced by the single
character `r`. -/
def collapseRun (p : Char → Bool) (r : Char) : List Char → List Char
  | [] => []
  | c :: t =>
    if p c then r :: collapseRun p r (t.dropWhile p)
    else c :: collapseRun p r t
  termination_by l => l.length
  decreasing_by
  · simp only [List.length_cons]
    have := List.IsSuffix.length_le (List.dropWhile_suffix (l := t) p)
    omega
  · simp only [List.length_cons]
    omega

/-- Python `str.rfind(c)`: index of the last occurrence of `c`, `-1`
when absent. -/
def pyRfind (l : List Char) (c : Char) : Int :=
  match l.reverse.findIdx? (· == c) with
  | some k => (l.length : Int) - 1 - k
  | none => -1

/-! ## `app/utils/preprocessing.py` -/

/-- Sentence-final punctuation of the Vietnamese text pipeline. -/
def isSentEnd (c : Char) : Bool := c == '.' || c == '!' || c == '?'

/-- Space or tab, the class `[ \t]` of `clean_text`. -/
def isST (c : Char) : Bool := c == ' ' || c == '\t'

/-- Newline, the class `\n` of `clean_text`. -/
def isNL (c : Char) : Bool := c == '\n'

/-- `re.sub(r'\r\n', '\n', text)`: leftmost, non-overlapping. -/
def subCRLF : List Char → List Char
  | [] => []
  | [c] => [c]
  | c :: d :: t =>
    if c = '\r' ∧ d = '\n' then '\n' :: subCRLF t
    else c :: subCRLF (d :: t)

/-- Character-level worker of `clean_text`. -/
def clean_text_chars (l : List Char) : List Char :=
  -- re.sub(r'\r\n', '\n', text); re.sub(r'\r', '\n', text)
  let l2 := (subCRLF l).map fun c => if c = '\r' then '\n' else c
  -- re.sub(r'[ \t]+', ' ', text); re.sub(r'\n+', '\n', text)
  let l4 := collapseRun isNL '\n' (collapseRun isST ' ' l2)
  -- lines = [line.strip() for line in text.split('\n')]
  let lines := (l4.splitOn '\n').map pyStrip
  -- '\n'.join(line for line in lines if line), then .strip()
  pyStrip (List.intercalate ['\n'] (lines.filter (· ≠ [])))

/-- `clean_text` of `app/utils/preprocessing.py`. -/
def clean_text (s : String) : String := ⟨clean_text_chars s.data⟩

/-- Scanner for `re.split(r'(?<=[.!?])\s+', text)`: a separator is a
maximal whitespace run whose preceding character is sentence-final
punctuation.  `prev` is the most recently consumed character. -/
def segSplitGo : List Char → Option Char → List Char → List (List Char)
  | [], _, cur => [cur.reverse]
  | c :: t, prev, cur =>
    if pyIsSpace c && (match prev with | some p => isSentEnd p | none => false) then
      cur.reverse :: segSplitGo (t.dropWhile pyIsSpace) none []
    else
      segSplitGo t (some c) (c :: cur)
  termination_by l _ _ => l.length
  decreasing_by
  · simp only [List.length_cons]
    have := List.IsSuffix.length_le (List.dropWhile_suffix (l := t) pyIsSpace)
    omega
  · simp only [List.length_cons]
    omega

/-- `re.split(r'(?<=[.!?])\s+', text)`. -/
def segSplit (l : List Char) : List (List Char) := segSplitGo l none []

/-- Character-level worker of `segment_sentences`: split, then
`[s.strip() for s in sentences if s.strip() and len(s.strip()) > 5]`. -/
def segment_sentences_chars (l : List Char) : List (List Char) :=
  ((segSplit l).map pyStrip).filter fun s => s ≠ [] ∧ 5 < s.length

/-- `segment_sentences` of `app/utils/preprocessing.py`. -/
def segment_sentences (s : String) : List String :=
  (segment_sentences_chars s.data).map fun l => ⟨l⟩

/-- Character-level worker of `truncate_text`. -/
def truncate_text_chars (l : List Char) (max_chars : Nat) : List Char :=
  if l.length ≤ max_chars then l
  else
    let truncated := l.take max_chars
    let last_period :=
      max (pyRfind truncated '.') (max (pyRfind truncated '!') (pyRfind truncated '?'))
    -- if last_period > max_chars * 0.5: return truncated[:last_period + 1]
    if (max_chars : Int) < 2 * last_period then truncated.take (last_period + 1).toNat
    else truncated

/-- `truncate_text` of `app/utils/preprocessing.py`. -/
def truncate_text (s : String) (max_chars : Nat) : String :=
  ⟨truncate_text_chars s.data max_chars⟩

/-! ## `app/utils/postprocessing.py` -/

/-- Character-level worker of `clean_output`: collapse `\s+` to a
single space, strip, then force a terminating `.` when the text does
not already end in `.`, `!` or `?`. -/
def clean_output_chars (l : List Char) : List Char :=
  let stripped := pyStrip (collapseRun pyIsSpace ' ' l)
  match stripped.getLast? with
  | none => stripped
  | some c => if isSentEnd c then stripped else stripped ++ ['.']

/-- `clean_output` of `app/utils/postprocessing.py`. -/
def clean_output (s : String) : String := ⟨clean_output_chars s.data⟩

/-- `' '.join ws`. -/
def joinSp (ws : List (List Char)) : List Char := List.intercalate [' '] ws

/-- The `while` loop of `remove_repetition`: `seen` is the set of
previously recorded 5-word window phrases (membership is all that is
used of the Python `set`). -/
def removeRepLoop : List (List Char) → List (List Char) → List (List Char)
  | [], _ => []
  | w :: ws, seen =>
    -- phrase = ' '.join(words[i:i+5])
    let phrase := joinSp (List.take 5 (w :: ws))
    if phrase ∈ seen ∧ 10 ≤ phrase.length then
      -- skip the repeated phrase: i += 5
      removeRepLoop (List.drop 5 (w :: ws)) seen
    else
      w :: removeRepLoop ws (phrase :: seen)
  termination_by l _ => l.length
  decreasing_by
  · simp only [List.length_cons, List.length_drop]
    omega
  · simp only [List.length_cons]
    omega

/-- `remove_repetition` of `app/utils/postprocessing.py`
(`min_repeat_length` left at its default 10). -/
def remove_repetition (s : String) : String :=
  ⟨joinSp (removeRepLoop (pySplitWs s.data) [])⟩

/-- Character-level worker of `ensure_complete_sentences`. -/
def ensure_complete_sentences_chars (l : List Char) : List Char :=
  let last_end := max (pyRfind l '.') (max (pyRfind l '!') (pyRfind l '?'))
  -- if last_end > len(text) * 0.5: return text[:last_end + 1]
  if (l.length : Int) < 2 * last_end then l.take (last_end + 1).toNat
  else l

/-- `ensure_complete_sentences` of `app/utils/postprocessing.py`. -/
def ensure_complete_sentences (s : String) : String :=
  ⟨ensure_complete_sentences_chars s.data⟩

/-! ### `ViT5Postprocessor._fix_date_format`

The two `re.sub` passes are modelled by explicit left-to-right
scanners.  `\d` is modelled as ASCII digits and `\w` as ASCII
alphanumerics, underscore, or any non-ASCII code point (the inputs of
interest only carry Vietnamese letters outside ASCII, which are word
characters for Python's Unicode `\w`). -/

/-- Python `\w` (see the note above). -/
def isWordChar (c : Char) : Bool := c.isAlphanum || c == '_' || 127 < c.toNat

/-- ASCII digit, Python `\d` on the inputs of interest. -/
def isDigit (c : Char) : Bool := c.isDigit

/-- Python `int()` on a string of digits. -/
def digitsVal (l : List Char) : Nat :=
  l.foldl (fun a c => a * 10 + (c.toNat - '0'.toNat)) 0

/-- Lowercasing used for `re.IGNORECASE` matching: ASCII letters plus
the uppercase forms of the Vietnamese letters appearing in the cue
words and known prefixes of this module. -/
def lowerChar (c : Char) : Char :=
  if c.isUpper then c.toLower
  else if c = 'À' then 'à'
  else if c = 'Ư' then 'ư'
  else if c = 'Ớ' then 'ớ'
  else if c = 'Ó' then 'ó'
  else if c = 'Ắ' then 'ắ'
  else if c = 'Ả' then 'ả'
  else if c = 'Đ' then 'đ'
  else c

/-- `fix_full_date` applied to a matched run `s` of 7 or 8 digits:
try `dd/m/yyyy`, then `d/mm/yyyy` (7 digits), or `dd/mm/yyyy`
(8 digits), validating day 1-31 and month ranges; return `s`
unchanged when validation fails. -/
def fixFullDate (s : List Char) : List Char :=
  if s.length = 7 then
    -- day, month, year = s[:2], s[2], s[3:]
    let day := s.take 2
    let month := (s.drop 2).take 1
    let year := s.drop 3
    if 1 ≤ digitsVal day ∧ digitsVal day ≤ 31 ∧ 1 ≤ digitsVal month ∧ digitsVal month ≤ 9 then
      day ++ '/' :: (month ++ '/' :: year)
    else
      -- day, month, year = s[0], s[1:3], s[3:]
      let day := s.take 1
      let month := (s.drop 1).take 2
      if 1 ≤ digitsVal day ∧ digitsVal day ≤ 9 ∧ 1 ≤ digitsVal month ∧ digitsVal month ≤ 12 then
        day ++ '/' :: (month ++ '/' :: year)
      else s
  else if s.length = 8 then
    -- day, month, year = s[:2], s[2:4], s[4:]
    let day := s.take 2
    let month := (s.drop 2).take 2
    let year := s.drop 4
    if 1 ≤ digitsVal day ∧ digitsVal day ≤ 31 ∧ 1 ≤ digitsVal month ∧ digitsVal month ≤ 12 then
      day ++ '/' :: (month ++ '/' :: year)
    else s
  else s

/-- `fix_short_date` / the body of `replace_short` applied to the
matched digit group: 3 digits are read as `dd` `m`, 4 digits as `dd`
`mm`, kept unchanged when validation fails. -/
def fixShortDate (s : List Char) : List Char :=
  if s.length = 3 then
    let day := s.take 2
    let month := s.drop 2
    if 1 ≤ digitsVal day ∧ digitsVal day ≤ 31 ∧ 1 ≤ digitsVal month ∧ digitsVal month ≤ 9 then
      day ++ '/' :: month
    else s
  else if s.length = 4 then
    let day := s.take 2
    let month := s.drop 2
    if 1 ≤ digitsVal day ∧ digitsVal day ≤ 31 ∧ 1 ≤ digitsVal month ∧ digitsVal month ≤ 12 then
      day ++ '/' :: month
    else s
  else s

/-- One maximal `\w`-run: `re.sub(r'\b(\d{7,8})\b', fix_full_date, text)`
rewrites it exactly when it consists of 7 or 8 digits (word boundaries
forbid any partial match inside a run). -/
def fixFullDateRun (run : List Char) : List Char :=
  if run.all isDigit ∧ (run.length = 7 ∨ run.length = 8) then fixFullDate run else run

/-- First pass of `_fix_date_format`:
`re.sub(r'\b(\d{7,8})\b', fix_full_date, text)`. -/
def dateFixPass1 : List Char → List Char
  | [] => []
  | c :: t =>
    if isWordChar c then
      fixFullDateRun ((c :: t).takeWhile isWordChar) ++ dateFixPass1 (t.dropWhile isWordChar)
    else c :: dateFixPass1 t
  termination_by l => l.length
  decreasing_by
  · simp only [List.length_cons]
    have := List.IsSuffix.length_le (List.dropWhile_suffix (l := t) isWordChar)
    omega
  · simp only [List.length_cons]
    omega

/-- Case-insensitive literal match of the (lowercase) pattern `w`
against a prefix of `l`; returns the consumed prefix verbatim and the
rest. -/
def matchLit : List Char → List Char → Option (List Char × List Char)
  | [], l => some ([], l)
  | p :: ps, c :: t =>
    if lowerChar c = p then
      match matchLit ps t with
      | some (con, r) => some (c :: con, r)
      | none => none
    else none
  | _ :: _, [] => none

/-- Match one alternative `w\s+` of the cue group (group 1 keeps the
consumed characters verbatim, trailing whitespace included). -/
def matchCueWord (w : List Char) (l : List Char) : Option (List Char × List Char) :=
  match matchLit w l with
  | none => none
  | some (con, rest) =>
    let ws := rest.takeWhile pyIsSpace
    if ws = [] then none else some (con ++ ws, rest.dropWhile pyIsSpace)

/-- The alternation `(ngày\s+|là\s+|trước\s+|sau\s+)`, tried in
pattern order. -/
def matchCue (l : List Char) : Option (List Char × List Char) :=
  match matchCueWord ("ngày".data) l with
  | some r => some r
  | none =>
    match matchCueWord ("là".data) l with
    | some r => some r
    | none =>
      match matchCueWord ("trước".data) l with
      | some r => some r
      | none => matchCueWord ("sau".data) l

/-- `\b` after the digit group: the next character must not be a word
character. -/
def boundaryOk (l : List Char) : Bool :=
  match l.head? with
  | none => true
  | some c => !(isWordChar c)

/-- One attempted match of
`(ngày\s+|là\s+|trước\s+|sau\s+)(\d{3,4})\b` at the head of `l`,
returning the replacement text (`replace_short`) and the rest. -/
def matchShort (l : List Char) : Option (List Char × List Char) :=
  match matchCue l with
  | none => none
  | some (g1, rest) =>
    let run := rest.takeWhile isDigit
    if (run.length = 3 ∨ run.length = 4) ∧ boundaryOk (rest.drop run.length) then
      some (g1 ++ fixShortDate run, rest.drop run.length)
    else none

/-- Generic left-to-right `re.sub` scanner: at each position try the
matcher; on a match emit its replacement and continue after the match,
otherwise keep the character.  The guard on the rest's length is a
termination guard; every matcher used below consumes at least one
character on success. -/
def reSub (m : List Char → Option (List Char × List Char)) : List Char → List Char
  | [] => []
  | c :: t =>
    match m (c :: t) with
    | some (r, rest) =>
      if _h : rest.length < t.length + 1 then r ++ reSub m rest
      else c :: reSub m t
    | none => c :: reSub m t
  termination_by l => l.length
  decreasing_by
    all_goals simp only [List.length_cons]
    all_goals omega

/-- `ViT5Postprocessor._fix_date_format` (both `re.sub` passes). -/
def fix_date_format_chars (l : List Char) : List Char :=
  reSub matchShort (dateFixPass1 l)

/-- `ViT5Postprocessor._fix_date_format` on strings. -/
def vit5_fix_date_format (s : String) : String := ⟨fix_date_format_chars s.data⟩

/-! ## `app/schemas/summarization.py` -/

/-- The `ModelType` enumeration. -/
inductive ModelType where
  | phobert_vit5
  | phobert_vit5_paraphrase
  | vit5
  | qwen
deriving DecidableEq

/-- `ModelType.value`: the string value of each enumeration member. -/
def ModelType.value : ModelType → String
  | .phobert_vit5 => "phobert_vit5"
  | .phobert_vit5_paraphrase => "phobert_vit5_paraphrase"
  | .vit5 => "vit5"
  | .qwen => "qwen"

/-- A validated `SummarizeRequest`. -/
structure SummarizeRequest where
  text : String
  model : ModelType
  max_length : Nat

/-- Pydantic construction of `SummarizeRequest`: `text` has
`min_length=10`, `max_length` is bounded to `[50, 512]`; violations
raise a validation error. -/
def mkSummarizeRequest (text : String) (model : ModelType) (max_length : Nat) :
    Except String SummarizeRequest :=
  if text.length < 10 then
    .error "validation error: text should have at least 10 characters"
  else if max_length < 50 ∨ 512 < max_length then
    .error "validation error: max_length out of range"
  else .ok ⟨text, model, max_length⟩

/-! ## Pre/postprocessor factories -/

/-- The preprocessor strategies registered in `get_preprocessor`. -/
inductive PreprocessorKind where
  | vit5
  | phobert_vit5
  | qwen
deriving DecidableEq

/-- The postprocessor strategies registered in `get_postprocessor`. -/
inductive PostprocessorKind where
  | vit5
  | phobert_vit5
  | qwen
deriving DecidableEq

/-- `get_preprocessor` of `app/utils/preprocessing.py`: dictionary
lookup over the keys `vit5`, `phobert_vit5`, `qwen`; unknown keys
raise `ValueError`. -/
def get_preprocessor (model_type : String) : Except String PreprocessorKind :=
  if model_type = "vit5" then .ok .vit5
  else if model_type = "phobert_vit5" then .ok .phobert_vit5
  else if model_type = "qwen" then .ok .qwen
  else .error ("Unknown model type: " ++ model_type)

/-- `get_postprocessor` of `app/utils/postprocessing.py`: dictionary
lookup over the keys `vit5`, `phobert_vit5`, `phobert_vit5_paraphrase`
(shares the `phobert_vit5` postprocessor) and `qwen`; unknown keys
raise `ValueError`. -/
def get_postprocessor (model_type : String) : Except String PostprocessorKind :=
  if model_type = "vit5" then .ok .vit5
  else if model_type = "phobert_vit5" then .ok .phobert_vit5
  else if model_type = "phobert_vit5_paraphrase" then .ok .phobert_vit5
  else if model_type = "qwen" then .ok .qwen
  else .error ("Unknown model type: " ++ model_type)

/-! ## Preprocessors -/

/-- Result dictionary of `ViT5Preprocessor.preprocess` /
`QwenPreprocessor.preprocess` (the qwen prompt fields are carried in
`processed_text`-adjacent fields below). -/
structure ViT5PreprocessResult where
  processed_text : String
  original_length : Nat
  processed_length : Nat
  was_truncated : Bool
deriving DecidableEq

/-- `ViT5Preprocessor.preprocess`. -/
def vit5_preprocess (text : String) : ViT5PreprocessResult :=
  let cleaned := clean_text text
  let truncated := truncate_text cleaned 3000
  { processed_text := "summarize: " ++ truncated
    original_length := text.length
    processed_length := truncated.length
    was_truncated := truncated.length < cleaned.length }

/-- Result dictionary of `PhoBertViT5Preprocessor.preprocess`
(`top_k_ratio`, a constant 0.6 float echoed back, is omitted). -/
structure PhoBertPreprocessResult where
  processed_text : String
  sentences : List String
  num_sentences : Nat
  original_length : Nat
deriving DecidableEq

/-- `PhoBertViT5Preprocessor.preprocess`. -/
def phobert_vit5_preprocess (text : String) : PhoBertPreprocessResult :=
  let cleaned := clean_text text
  let sentences := segment_sentences cleaned
  -- max_sentences = 50
  let sentences := if 50 < sentences.length then sentences.take 50 else sentences
  { processed_text := cleaned
    sentences := sentences
    num_sentences := sentences.length
    original_length := text.length }

/-- Result dictionary of `QwenPreprocessor.preprocess`. -/
structure QwenPreprocessResult where
  processed_text : String
  system_prompt : String
  user_prompt : String
  original_length : Nat
  processed_length : Nat
  was_truncated : Bool
deriving DecidableEq

/-- `QwenPreprocessor.SYSTEM_PROMPT`. -/
def qwenSystemPrompt : String :=
  "Bạn là trợ lý tóm tắt văn bản tiếng Việt. Hãy tóm tắt ngắn gọn, giữ lại các ý chính quan trọng nhất."

/-- `QwenPreprocessor.preprocess` (default `max_context = 6000`). -/
def qwen_preprocess (text : String) : QwenPreprocessResult :=
  let cleaned := clean_text text
  let truncated := truncate_text cleaned 6000
  { processed_text := truncated
    system_prompt := qwenSystemPrompt
    user_prompt := "Tóm tắt văn bản sau:\n\n" ++ truncated
    original_length := text.length
    processed_length := truncated.length
    was_truncated := truncated.length < cleaned.length }

/-- The heterogeneous preprocess result, tagged by strategy. -/
inductive PreprocessResult where
  | vit5 : ViT5PreprocessResult → PreprocessResult
  | phobert : PhoBertPreprocessResult → PreprocessResult
  | qwen : QwenPreprocessResult → PreprocessResult
deriving DecidableEq

/-- Dispatch `preprocessor.preprocess(text, ...)`. -/
def runPreprocessor : PreprocessorKind → String → PreprocessResult
  | .vit5, text => .vit5 (vit5_preprocess text)
  | .phobert_vit5, text => .phobert (phobert_vit5_preprocess text)
  | .qwen, text => .qwen (qwen_preprocess text)

/-- `preprocess_result.get("processed_text", request.text)`. -/
def PreprocessResult.processedText : PreprocessResult → String
  | .vit5 r => r.processed_text
  | .phobert r => r.processed_text
  | .qwen r => r.processed_text

/-! ## Postprocessors -/

/-- Result dictionary of the postprocessors. -/
structure PostprocessResult where
  summary : String
  original_length : Nat
  processed_length : Nat
  num_selected_sentences : Option Nat
deriving DecidableEq

/-- `ViT5Postprocessor.postprocess`. -/
def vit5_postprocess (summary : String) : PostprocessResult :=
  let cleaned := clean_output summary
  let cleaned := vit5_fix_date_format cleaned
  let cleaned := remove_repetition cleaned
  let cleaned := ensure_complete_sentences cleaned
  { summary := cleaned
    original_length := summary.length
    processed_length := cleaned.length
    num_selected_sentences := none }

/-- `PhoBertViT5Postprocessor.postprocess`; `selected_sentences` adds
`num_selected_sentences` to the metadata when truthy (non-empty). -/
def phobert_vit5_postprocess (summary : String) (selected_sentences : Option (List String)) :
    PostprocessResult :=
  let cleaned := clean_output summary
  let cleaned := remove_repetition cleaned
  let cleaned := ensure_complete_sentences cleaned
  { summary := cleaned
    original_length := summary.length
    processed_length := cleaned.length
    num_selected_sentences :=
      match selected_sentences with
      | some l => if l ≠ [] then some l.length else none
      | none => none }

/-- The chat-style lead-in phrases removed by `QwenPostprocessor`. -/
def qwenLeadIns : List String :=
  ["Dưới đây là bản tóm tắt:", "Tóm tắt:", "Bản tóm tắt:", "Summary:"]

/-- One step of the lead-in removal loop:
`if cleaned.lower().startswith(prefix.lower()): cleaned = cleaned[len(prefix):].strip()`. -/
def stripLeadIn (pre : String) (l : List Char) : List Char :=
  if List.isPrefixOf (pre.data.map lowerChar) (l.map lowerChar) then
    pyStrip (l.drop pre.length)
  else l

/-- Lazy `.*?pat` matching: consume the shortest run of non-newline
characters followed by the (case-insensitively matched) pattern, and
return what follows it. -/
def lazyUntil (pat : List Char) : List Char → Option (List Char)
  | [] => none
  | c :: t =>
    match matchLit pat (c :: t) with
    | some (_, rest) => some rest
    | none => if c = '\n' then none else lazyUntil pat t

/-- Matcher for `re.sub(r'\(nguồn:.*?\)', '', text, flags=re.IGNORECASE)`. -/
def matchNguon (l : List Char) : Option (List Char × List Char) :=
  match matchLit ("(nguồn:".data) l with
  | none => none
  | some (_, rest) =>
    match lazyUntil (")".data) rest with
    | none => none
    | some rest2 => some ([], rest2)

/-- Matcher for `re.sub(r'\[.*?\]', '', text, flags=re.IGNORECASE)`. -/
def matchBracket (l : List Char) : Option (List Char × List Char) :=
  match matchLit ("[".data) l with
  | none => none
  | some (_, rest) =>
    match lazyUntil ("]".data) rest with
    | none => none
    | some rest2 => some ([], rest2)

/-- Matcher for `re.sub(r'Theo.*?cho biết,', '', text, flags=re.IGNORECASE)`. -/
def matchTheo (l : List Char) : Option (List Char × List Char) :=
  match matchLit ("theo".data) l with
  | none => none
  | some (_, rest) =>
    match lazyUntil ("cho biết,".data) rest with
    | none => none
    | some rest2 => some ([], rest2)

/-- `QwenPostprocessor.postprocess`. -/
def qwen_postprocess (summary : String) : PostprocessResult :=
  let cleaned := clean_output summary
  let cleaned : String := ⟨qwenLeadIns.foldl (fun l p => stripLeadIn p l) cleaned.data⟩
  let cleaned := remove_repetition cleaned
  let cleaned := ensure_complete_sentences cleaned
  let cleaned : String := ⟨reSub matchTheo (reSub matchBracket (reSub matchNguon cleaned.data))⟩
  let cleaned := clean_output cleaned
  { summary := cleaned
    original_length := summary.length
    processed_length := cleaned.length
    num_selected_sentences := none }

/-- Dispatch `postprocessor.postprocess(summary=..., **preprocess_result)`.
The keyword dictionary passed by `SummarizationService.summarize` never
contains `selected_sentences`, so the phobert postprocessor receives its
default `None` there. -/
def runPostprocessor : PostprocessorKind → String → PostprocessResult
  | .vit5, summary => vit5_postprocess summary
  | .phobert_vit5, summary => phobert_vit5_postprocess summary none
  | .qwen, summary => qwen_postprocess summary

/-! ## `app/services/summarization_service.py`

The Colab inference server is an external RPC collaborator, modelled
as a function argument; raising in the client appears as `Except.error`.
Wall-clock timing fields (`colab_inference_ms/_s`,
`total_processing_ms/_s`) and the assorted-value `metadata` dictionary
are not modelled. -/

/-- The payload sent to the Colab server by `summarize`. -/
structure ColabPayload where
  text : String
  model : String
  max_length : Nat
  preprocessed_sentences : Option (List String)
deriving DecidableEq

/-- The relevant fields of a Colab server response. -/
structure ColabResponse where
  summary : String
  model_used : String
deriving DecidableEq

/-- The modelled fields of `SummarizeResponse`. -/
structure SummarizeResponse where
  original_text : String
  preprocessed_text : String
  summary : String
  model_used : ModelType
deriving DecidableEq

/-- `SummarizationService.summarize`: preprocess according to the
model type, call the Colab collaborator, postprocess. -/
def summarize (colab : ColabPayload → Except String ColabResponse)
    (request : SummarizeRequest) : Except String SummarizeResponse := do
  let model_type := request.model.value
  -- 1. preprocessing (get_preprocessor raises on unknown model keys)
  let pk ← get_preprocessor model_type
  let pre := runPreprocessor pk request.text
  -- 2. Colab call; sentences are attached for the hybrid model
  let payload : ColabPayload :=
    { text := pre.processedText
      model := model_type
      max_length := request.max_length
      preprocessed_sentences :=
        match pre with
        | .phobert r => if model_type = "phobert_vit5" then some r.sentences else none
        | _ => none }
  let resp ← colab payload
  -- 3. postprocessing
  let postk ← get_postprocessor model_type
  let post := runPostprocessor postk resp.summary
  .ok { original_text := request.text
        preprocessed_text := pre.processedText
        summary := post.summary
        model_used := request.model }

/-! ## `app/services/evaluation_service.py`

The ROUGE/BLEU/BERTScore metric computations and the `pyvi` word
segmenter are external library collaborators, modelled as an abstract
backend record.  `processing_time_ms` fields are wall clock and not
modelled. -/

/-- The `rouge1`/`rouge2`/`rougeL` F1 triple extracted from
`rouge.compute`. -/
structure RougeScores where
  rouge1 : ℚ
  rouge2 : ℚ
  rougeL : ℚ
deriving DecidableEq

/-- External metric backends: `ViTokenizer.tokenize`, `rouge.compute`
(with F1 extraction), `bleu.compute`, and `bertscore.compute` followed
by the F1 average (the last taking the batch size). -/
structure EvalBackends where
  tokenize : String → String
  rougeCompute : List String → List String → RougeScores
  bleuCompute : List String → List (List String) → ℚ
  bertCompute : List String → List String → Nat → ℚ

/-- `EvaluationService.preprocess_vietnamese`. -/
def preprocess_vietnamese (be : EvalBackends) (texts : List String) : List String :=
  texts.map be.tokenize

/-- `EvaluationService.calculate_rouge`. -/
def calculate_rouge (be : EvalBackends) (predictions references : List String) : RougeScores :=
  be.rougeCompute (preprocess_vietnamese be predictions) (preprocess_vietnamese be references)

/-- `EvaluationService.calculate_bleu` (each reference wrapped as a
singleton reference set). -/
def calculate_bleu (be : EvalBackends) (predictions references : List String) : ℚ :=
  be.bleuCompute (preprocess_vietnamese be predictions)
    ((preprocess_vietnamese be references).map fun ref => [ref])

/-- `EvaluationService.calculate_bertscore` (raw, unsegmented text). -/
def calculate_bertscore (be : EvalBackends) (predictions references : List String)
    (batch_size : Nat) : ℚ :=
  be.bertCompute predictions references batch_size

/-- The modelled fields of the `evaluate_single` result dictionary. -/
structure EvaluationMetrics where
  rouge1 : ℚ
  rouge2 : ℚ
  rougeL : ℚ
  bleu : ℚ
  bert_score : ℚ
deriving DecidableEq

/-- `EvaluationService.evaluate_single`: ROUGE and BLEU always,
BERTScore only when `calculate_bert`, else the `0.0` sentinel. -/
def evaluate_single (be : EvalBackends) (prediction reference : String)
    (calculate_bert : Bool) (batch_size : Nat) : EvaluationMetrics :=
  let preds := [prediction]
  let refs := [reference]
  let rouge_scores := calculate_rouge be preds refs
  let bleu_score := calculate_bleu be preds refs
  let bert_score : ℚ := if calculate_bert then calculate_bertscore be preds refs batch_size else 0
  { rouge1 := rouge_scores.rouge1
    rouge2 := rouge_scores.rouge2
    rougeL := rouge_scores.rougeL
    bleu := bleu_score
    bert_score := bert_score }

/-- The modelled fields of the `evaluate_batch` result dictionary. -/
structure BatchMetrics where
  avg_rouge1 : ℚ
  avg_rouge2 : ℚ
  avg_rougeL : ℚ
  avg_bleu : ℚ
  avg_bert_score : ℚ
  total_samples : Nat
deriving DecidableEq

/-- `EvaluationService.evaluate_batch`: whole-batch ROUGE and BLEU,
BERTScore only when `calculate_bert`, else the `0.0` sentinel. -/
def evaluate_batch (be : EvalBackends) (predictions references : List String)
    (calculate_bert : Bool) (batch_size : Nat) : BatchMetrics :=
  let rouge_scores := calculate_rouge be predictions references
  let bleu_score := calculate_bleu be predictions references
  let bert_score : ℚ :=
    if calculate_bert then calculate_bertscore be predictions references batch_size else 0
  { avg_rouge1 := rouge_scores.rouge1
    avg_rouge2 := rouge_scores.rouge2
    avg_rougeL := rouge_scores.rougeL
    avg_bleu := bleu_score
    avg_bert_score := bert_score
    total_samples := predictions.length }

/-! ## `app/routers/evaluation.py` -/

/-- A parsed `EvaluateBatchRequest`. -/
structure EvaluateBatchRequest where
  predictions : List String
  references : List String
  calculate_bert : Bool
  batch_size : Nat

/-- An `HTTPException`. -/
structure HttpError where
  status_code : Nat
  detail : String
deriving DecidableEq

/-- The `/evaluation/batch` handler `evaluate_batch` of
`app/routers/evaluation.py`: mismatched array lengths are rejected
with a 400 before the evaluation service is consulted. -/
def evaluate_batch_route (be : EvalBackends) (request : EvaluateBatchRequest) :
    Except HttpError BatchMetrics :=
  if request.predictions.length ≠ request.references.length then
    .error ⟨400, "predictions (" ++ toString request.predictions.length ++
      ") và references (" ++ toString request.references.length ++
      ") phải có cùng độ dài"⟩
  else
    .ok (evaluate_batch be request.predictions request.references
      request.calculate_bert request.batch_size)

/-! ## `app/services/batch_service.py`

The parsed table is modelled as the list of its rows; a `None` cell
models a missing value (pandas `NaN`).  `BatchService.process_batch`
calls `SummarizationService.summarize` per row, which is passed in as
a function (it wraps the external inference RPC).  Wall-clock timing
fields are not modelled. -/

/-- One parsed row: the text cell and the optional reference cell. -/
structure BatchRow where
  text_cell : Option String
  ref_cell : Option String
deriving DecidableEq

/-- Python `str(cell)`: a missing value prints as `nan`. -/
def cellStr : Option String → String
  | some s => s
  | none => "nan"

/-- The modelled fields of `BatchItemResult`. -/
structure BatchItemResult where
  index : Nat
  original_text : String
  summary : String
  reference_summary : Option String
  model_used : Option ModelType
  success : Bool
  error : Option String
deriving DecidableEq

/-- The guarded body of the row loop of `process_batch`: build the
`SummarizeRequest` (pydantic may raise) and call the summarization
service. -/
def rowOutcome (summarizeFn : SummarizeRequest → Except String SummarizeResponse)
    (text : String) (model : ModelType) (max_length : Nat) :
    Except String SummarizeResponse := do
  let request ← mkSummarizeRequest text model max_length
  summarizeFn request

/-- Processing of one row of `process_batch`: any raise of the guarded
body is caught and recorded as a failure item. -/
def processBatchRow (summarizeFn : SummarizeRequest → Except String SummarizeResponse)
    (hasRefColumn : Bool) (model : ModelType) (max_length : Nat)
    (idx : Nat) (row : BatchRow) : BatchItemResult :=
  let text := cellStr row.text_cell
  let reference := if hasRefColumn then row.ref_cell else none
  match rowOutcome summarizeFn text model max_length with
  | .ok response =>
    { index := idx
      original_text := text
      summary := response.summary
      reference_summary := reference
      model_used := some model
      success := true
      error := none }
  | .error e =>
    { index := idx
      original_text := text
      summary := ""
      reference_summary := reference
      model_used := some model
      success := false
      error := some e }

/-- The row loop of `process_batch`, carrying the result list and the
`successful`/`failed` counters. -/
def processRows (summarizeFn : SummarizeRequest → Except String SummarizeResponse)
    (hasRefColumn : Bool) (model : ModelType) (max_length : Nat) :
    Nat → List BatchRow → List BatchItemResult × Nat × Nat
  | _, [] => ([], 0, 0)
  | i, row :: rest =>
    let item := processBatchRow summarizeFn hasRefColumn model max_length i row
    let tail := processRows summarizeFn hasRefColumn model max_length (i + 1) rest
    if item.success then (item :: tail.1, tail.2.1 + 1, tail.2.2)
    else (item :: tail.1, tail.2.1, tail.2.2 + 1)

/-- The modelled fields of `BatchUploadResponse`. -/
structure BatchUploadResponse where
  total_items : Nat
  successful_items : Nat
  failed_items : Nat
  model_used : Option ModelType
  results : List BatchItemResult
deriving DecidableEq

/-- `BatchService.process_batch` on an already parsed table. -/
def process_batch (summarizeFn : SummarizeRequest → Except String SummarizeResponse)
    (rows : List BatchRow) (model : ModelType) (max_length : Nat)
    (hasRefColumn : Bool) : BatchUploadResponse :=
  let (results, successful, failed) := processRows summarizeFn hasRefColumn model max_length 0 rows
  { total_items := results.length
    successful_items := successful
    failed_items := failed
    model_used := some model
    results := results }

/-! ## Specification-side definitions and concrete test data -/

/-- Specification-side description of "the nearest preceding mark":
the greatest index of a character satisfying `p`, if any.  (The code
computes this as a maximum of three `str.rfind` calls; the equivalence
is proved below.) -/
def lastIdxSatisfying (p : Char → Bool) : List Char → Option Nat
  | [] => none
  | c :: t =>
    match lastIdxSatisfying p t with
    | some k => some (k + 1)
    | none => if p c then some 0 else none

/-- The list of non-blank stripped lines produced inside `clean_text`
(the value of the `lines` comprehension after the blank filter). -/
def cleanLines (l : List Char) : List (List Char) :=
  (((collapseRun isNL '\n'
      (collapseRun isST ' '
        ((subCRLF l).map fun c => if c = '\r' then '\n' else c))).splitOn '\n').map
    pyStrip).filter (· ≠ [])

/-- The keys registered in the `get_preprocessor` dictionary. -/
def preprocessorKeys : List String := ["vit5", "phobert_vit5", "qwen"]

/-- The keys registered in the `get_postprocessor` dictionary. -/
def postprocessorKeys : List String :=
  ["vit5", "phobert_vit5", "phobert_vit5_paraphrase", "qwen"]

/-- A 120-sentence input for the sentence-cap test. -/
def sample120 : String := String.join (List.replicate 120 "Một câu đủ dài. ")

/-- A summarization collaborator that always succeeds, for the
concrete batch scenario. -/
def okSummarizer : SummarizeRequest → Except String SummarizeResponse :=
  fun request => .ok ⟨request.text, request.text, "Bản tóm tắt mẫu.", request.model⟩

/-- Five parsed rows whose third row has an empty (missing) text
cell. -/
def sampleRows5 : List BatchRow :=
  [⟨some "Văn bản đầu tiên cần tóm tắt.", none⟩,
   ⟨some "Văn bản thứ hai cần tóm tắt.", none⟩,
   ⟨none, none⟩,
   ⟨some "Văn bản thứ tư cần tóm tắt.", none⟩,
   ⟨some "Văn bản thứ năm cần tóm tắt.", none⟩]

/-! # Theorems -/

/-! ## `rfind` lemmas -/

theorem lastIdxSatisfying_concat (p : Char → Bool) (l : List Char) (a : Char) :
    lastIdxSatisfying p (l ++ [a])
      = if p a then some l.length else lastIdxSatisfying p l := by
  induction l with
  | nil => by_cases h : p a <;> simp [lastIdxSatisfying, h]
  | cons c t ih =>
    rw [List.cons_append, lastIdxSatisfying, ih]
    by_cases h : p a
    · simp [h]
    · simp only [h, if_false]
      rfl

theorem lastIdxSatisfying_lt_length (p : Char → Bool) :
    ∀ (l : List Char) (k : Nat), lastIdxSatisfying p l = some k → k < l.length := by
  intro l
  induction l with
  | nil => intro k hk; simp [lastIdxSatisfying] at hk
  | cons c t ih =>
    intro k hk
    simp only [lastIdxSatisfying] at hk
    cases h : lastIdxSatisfying p t with
    | some m =>
      rw [h] at hk
      simp only [Option.some.injEq] at hk
      subst hk
      have := ih m h
      simp only [List.length_cons]
      omega
    | none =>
      rw [h] at hk
      by_cases hp : p c
      · simp [hp] at hk
        subst hk
        simp
      · simp [hp] at hk

theorem pyRfind_concat (l : List Char) (a c : Char) :
    pyRfind (l ++ [a]) c = if a = c then (l.length : Int) else pyRfind l c := by
  unfold pyRfind
  rw [List.reverse_append]
  simp only [List.reverse_singleton, List.singleton_append, List.findIdx?_cons,
    List.findIdx?_succ]
  by_cases h : a = c
  · subst h
    simp only [beq_self_eq_true, if_true, List.length_append, List.length_singleton]
    push_cast
    ring
  · have hbeq : (a == c) = false := by simp [h]
    rw [if_neg h]
    simp only [hbeq, Bool.false_eq_true, if_false]
    cases hf : l.reverse.findIdx? (· == c) with
    | some k =>
      show ((l ++ [a]).length : Int) - 1 - ((k + 1 : Nat) : Int) = (l.length : Int) - 1 - k
      simp only [List.length_append, List.length_singleton]
      push_cast
      ring
    | none => rfl

theorem pyRfind_lt_length (l : List Char) (c : Char) : pyRfind l c < (l.length : Int) := by
  unfold pyRfind
  cases hf : l.reverse.findIdx? (· == c) with
  | some k =>
    show (l.length : Int) - 1 - k < l.length
    omega
  | none =>
    show (-1 : Int) < l.length
    omega

theorem max3_rfind_eq_lastIdx (l : List Char) :
    max (pyRfind l '.') (max (pyRfind l '!') (pyRfind l '?'))
      = (lastIdxSatisfying isSentEnd l).elim (-1 : Int) (fun k => (k : Int)) := by
  induction l using List.reverseRecOn with
  | nil => simp [pyRfind, lastIdxSatisfying]
  | append_singleton l a ih =>
    rw [pyRfind_concat, pyRfind_concat, pyRfind_concat, lastIdxSatisfying_concat]
    have h1 := pyRfind_lt_length l '.'
    have h2 := pyRfind_lt_length l '!'
    have h3 := pyRfind_lt_length l '?'
    by_cases e1 : a = '.'
    · subst e1
      simpa [isSentEnd] using ⟨le_of_lt h2, le_of_lt h3⟩
    · by_cases e2 : a = '!'
      · subst e2
        have : max (l.length : Int) (pyRfind l '?') = (l.length : Int) :=
          max_eq_left (le_of_lt h3)
        simp [isSentEnd, this, max_eq_right (le_of_lt h1), le_of_lt h2,
          max_eq_left (le_of_lt h3)]
      · by_cases e3 : a = '?'
        · subst e3
          have hm : max (pyRfind l '!') ((l.length : Int)) = (l.length : Int) :=
            max_eq_right (le_of_lt h2)
          simp [isSentEnd, hm, max_eq_right (le_of_lt h1)]
        · have : isSentEnd a = false := by simp [isSentEnd, e1, e2, e3]
          simp [this, e1, e2, e3, ih]

/-! ## C3 -/

/-- C3: `truncate_text x n` returns `x` unchanged when `len x ≤ n`;
otherwise it returns a string of length at most `n`: the cut at `n`
followed by a backtrack to the last preceding sentence-final mark
exactly when that mark's position lies strictly past the 50% point of
the window (`n < 2p`), and the hard cut at `n` otherwise (also when no
mark exists). -/
theorem truncate_text_spec (x : String) (n : Nat) :
    (x.length ≤ n → truncate_text x n = x) ∧
    (n < x.length → (truncate_text x n).length ≤ n) ∧
    (∀ p : Nat, n < x.length → lastIdxSatisfying isSentEnd (x.data.take n) = some p →
      (n < 2 * p → truncate_text x n = ⟨x.data.take (p + 1)⟩) ∧
      (2 * p ≤ n → truncate_text x n = ⟨x.data.take n⟩)) ∧
    (n < x.length → lastIdxSatisfying isSentEnd (x.data.take n) = none →
      truncate_text x n = ⟨x.data.take n⟩) := by
  have hlen : x.length = x.data.length := rfl
  refine ⟨?_, ?_, ?_, ?_⟩
  · intro h
    rw [hlen] at h
    simp only [truncate_text, truncate_text_chars, h, if_true]
  · intro h
    rw [hlen] at h
    have hres : (truncate_text x n).length = (truncate_text_chars x.data n).length := rfl
    rw [hres]
    simp only [truncate_text_chars, Nat.not_le.2 h, if_false]
    split
    · simp only [List.length_take]
      omega
    · simp only [List.length_take]
      omega
  · intro p h hp
    have hmax := max3_rfind_eq_lastIdx (x.data.take n)
    rw [hp] at hmax
    simp only [Option.elim] at hmax
    have hplt : p < n := by
      have := lastIdxSatisfying_lt_length isSentEnd (x.data.take n) p hp
      rw [hlen] at h
      simp only [List.length_take] at this
      omega
    constructor
    · intro h2p
      simp only [truncate_text, truncate_text_chars, Nat.not_le.2 (hlen ▸ h), if_false, hmax]
      rw [if_pos (by omega)]
      have htn : ((p : Int) + 1).toNat = p + 1 := by omega
      rw [htn, List.take_take, Nat.min_eq_left (by omega)]
    · intro h2p
      simp only [truncate_text, truncate_text_chars, Nat.not_le.2 (hlen ▸ h), if_false, hmax]
      rw [if_neg (by omega)]
  · intro h hp
    have hmax := max3_rfind_eq_lastIdx (x.data.take n)
    rw [hp] at hmax
    simp only [Option.elim] at hmax
    simp only [truncate_text, truncate_text_chars, Nat.not_le.2 (hlen ▸ h), if_false, hmax]
    rw [if_neg (by omega)]

/-- C3 witness: a cut with backtracking to the sentence boundary, and
a no-op below the bound. -/
theorem truncate_text_spec_witness :
    truncate_text "Hi there. Next words" 12 = "Hi there." ∧
    truncate_text "Ngắn gọn." 100 = "Ngắn gọn." :=
  ⟨((truncate_text_spec "Hi there. Next words" 12).2.2.1 8 (by decide) (by decide)).1
      (by decide),
   (truncate_text_spec "Ngắn gọn." 100).1 (by decide)⟩

/-! ## C5 -/

/-- C5: the vit5 date repair. Concretely,
"Sự kiện diễn ra ngày 1852023 tại Hà Nội" is rewritten so that it
contains "18/5/2023", and "206" after the cue "ngày " becomes "20/6".
Generally, a 7-digit run is formatted `dd/m/yyyy` when day 1-31 and
month 1-9 validate, else `d/mm/yyyy` when day 1-9 and month 1-12
validate, else left unchanged; an 8-digit run is formatted
`dd/mm/yyyy` under day 1-31, month 1-12, else left unchanged; and a
cue-preceded 3- or 4-digit run becomes `dd/m` resp. `dd/mm` under the
analogous validation, else stays unchanged. -/
theorem vit5_date_repair :
    vit5_fix_date_format "Sự kiện diễn ra ngày 1852023 tại Hà Nội"
      = "Sự kiện diễn ra ngày 18/5/2023 tại Hà Nội" ∧
    List.IsInfix ("18/5/2023".data)
      (vit5_fix_date_format "Sự kiện diễn ra ngày 1852023 tại Hà Nội").data ∧
    vit5_fix_date_format "ngày 206" = "ngày 20/6" ∧
    (∀ a b c d e f g : Char,
      (1 ≤ digitsVal [a, b] ∧ digitsVal [a, b] ≤ 31 ∧
          1 ≤ digitsVal [c] ∧ digitsVal [c] ≤ 9 →
        fixFullDate [a, b, c, d, e, f, g] = [a, b, '/', c, '/', d, e, f, g]) ∧
      (¬(1 ≤ digitsVal [a, b] ∧ digitsVal [a, b] ≤ 31 ∧
          1 ≤ digitsVal [c] ∧ digitsVal [c] ≤ 9) →
        (1 ≤ digitsVal [a] ∧ digitsVal [a] ≤ 9 ∧
            1 ≤ digitsVal [b, c] ∧ digitsVal [b, c] ≤ 12 →
          fixFullDate [a, b, c, d, e, f, g] = [a, '/', b, c, '/', d, e, f, g]) ∧
        (¬(1 ≤ digitsVal [a] ∧ digitsVal [a] ≤ 9 ∧
            1 ≤ digitsVal [b, c] ∧ digitsVal [b, c] ≤ 12) →
          fixFullDate [a, b, c, d, e, f, g] = [a, b, c, d, e, f, g]))) ∧
    (∀ a b c d e f g h : Char,
      (1 ≤ digitsVal [a, b] ∧ digitsVal [a, b] ≤ 31 ∧
          1 ≤ digitsVal [c, d] ∧ digitsVal [c, d] ≤ 12 →
        fixFullDate [a, b, c, d, e, f, g, h] = [a, b, '/', c, d, '/', e, f, g, h]) ∧
      (¬(1 ≤ digitsVal [a, b] ∧ digitsVal [a, b] ≤ 31 ∧
          1 ≤ digitsVal [c, d] ∧ digitsVal [c, d] ≤ 12) →
        fixFullDate [a, b, c, d, e, f, g, h] = [a, b, c, d, e, f, g, h])) ∧
    (∀ a b c : Char,
      (1 ≤ digitsVal [a, b] ∧ digitsVal [a, b] ≤ 31 ∧
          1 ≤ digitsVal [c] ∧ digitsVal [c] ≤ 9 →
        fixShortDate [a, b, c] = [a, b, '/', c]) ∧
      (¬(1 ≤ digitsVal [a, b] ∧ digitsVal [a, b] ≤ 31 ∧
          1 ≤ digitsVal [c] ∧ digitsVal [c] ≤ 9) →
        fixShortDate [a, b, c] = [a, b, c])) ∧
    (∀ a b c d : Char,
      (1 ≤ digitsVal [a, b] ∧ digitsVal [a, b] ≤ 31 ∧
          1 ≤ digitsVal [c, d] ∧ digitsVal [c, d] ≤ 12 →
        fixShortDate [a, b, c, d] = [a, b, '/', c, d]) ∧
      (¬(1 ≤ digitsVal [a, b] ∧ digitsVal [a, b] ≤ 31 ∧
          1 ≤ digitsVal [c, d] ∧ digitsVal [c, d] ≤ 12) →
        fixShortDate [a, b, c, d] = [a, b, c, d])) := by
  have hbig : vit5_fix_date_format "Sự kiện diễn ra ngày 1852023 tại Hà Nội"
      = "Sự kiện diễn ra ngày 18/5/2023 tại Hà Nội" := by
    simp +decide [vit5_fix_date_format, fix_date_format_chars, dateFixPass1, reSub,
      matchShort, matchCue, matchCueWord, matchLit, fixShortDate, fixFullDateRun,
      fixFullDate, boundaryOk, digitsVal, lowerChar, isWordChar, isDigit, pyIsSpace]
  refine ⟨hbig, ?_, ?_, ?_, ?_, ?_, ?_⟩
  · rw [hbig]
    decide
  · simp +decide [vit5_fix_date_format, fix_date_format_chars, dateFixPass1, reSub,
      matchShort, matchCue, matchCueWord, matchLit, fixShortDate, fixFullDateRun,
      fixFullDate, boundaryOk, digitsVal, lowerChar, isWordChar, isDigit, pyIsSpace]
  · intro a b c d e f g
    have e1 : ([a, b, c, d, e, f, g] : List Char).length = 7 := rfl
    have e2 : ([a, b, c, d, e, f, g] : List Char).take 2 = [a, b] := rfl
    have e3 : (([a, b, c, d, e, f, g] : List Char).drop 2).take 1 = [c] := rfl
    have e4 : ([a, b, c, d, e, f, g] : List Char).drop 3 = [d, e, f, g] := rfl
    have e5 : ([a, b, c, d, e, f, g] : List Char).take 1 = [a] := rfl
    have e6 : (([a, b, c, d, e, f, g] : List Char).drop 1).take 2 = [b, c] := rfl
    refine ⟨?_, fun hn => ⟨?_, ?_⟩⟩ <;>
      simp only [fixFullDate, e1, e2, e3, e4, e5, e6, if_true, eq_self_iff_true]
    · intro h
      rw [if_pos h]
      rfl
    · intro h
      rw [if_neg hn, if_pos h]
      rfl
    · intro h
      rw [if_neg hn, if_neg h]
  · intro a b c d e f g h
    constructor
    · intro hc
      show (if 1 ≤ digitsVal [a, b] ∧ digitsVal [a, b] ≤ 31 ∧
              1 ≤ digitsVal [c, d] ∧ digitsVal [c, d] ≤ 12
            then [a, b] ++ '/' :: ([c, d] ++ '/' :: [e, f, g, h])
            else [a, b, c, d, e, f, g, h]) = [a, b, '/', c, d, '/', e, f, g, h]
      rw [if_pos hc]
      rfl
    · intro hc
      show (if 1 ≤ digitsVal [a, b] ∧ digitsVal [a, b] ≤ 31 ∧
              1 ≤ digitsVal [c, d] ∧ digitsVal [c, d] ≤ 12
            then [a, b] ++ '/' :: ([c, d] ++ '/' :: [e, f, g, h])
            else [a, b, c, d, e, f, g, h]) = [a, b, c, d, e, f, g, h]
      rw [if_neg hc]
  · intro a b c
    have e1 : ([a, b, c] : List Char).length = 3 := rfl
    have e2 : ([a, b, c] : List Char).take 2 = [a, b] := rfl
    have e3 : ([a, b, c] : List Char).drop 2 = [c] := rfl
    constructor <;>
      · intro hc
        simp only [fixShortDate, e1, e2, e3, if_true, eq_self_iff_true]
        first
        | (rw [if_pos hc]; rfl)
        | rw [if_neg hc]
  · intro a b c d
    constructor
    · intro hc
      show (if 1 ≤ digitsVal [a, b] ∧ digitsVal [a, b] ≤ 31 ∧
              1 ≤ digitsVal [c, d] ∧ digitsVal [c, d] ≤ 12
            then [a, b] ++ '/' :: [c, d]
            else [a, b, c, d]) = [a, b, '/', c, d]
      rw [if_pos hc]
      rfl
    · intro hc
      show (if 1 ≤ digitsVal [a, b] ∧ digitsVal [a, b] ≤ 31 ∧
              1 ≤ digitsVal [c, d] ∧ digitsVal [c, d] ≤ 12
            then [a, b] ++ '/' :: [c, d]
            else [a, b, c, d]) = [a, b, c, d]
      rw [if_neg hc]

/-- C5 witness: the universal branch statements applied to the digits
of "1852023" (valid `dd/m/yyyy`), "4567890" (both validations fail)
and "206" (valid `dd/m`). -/
theorem vit5_date_repair_witness :
    fixFullDate ("1852023".data) = "18/5/2023".data ∧
    fixFullDate ("4567890".data) = "4567890".data ∧
    fixShortDate ("206".data) = "20/6".data :=
  ⟨(vit5_date_repair.2.2.2.1 '1' '8' '5' '2' '0' '2' '3').1 (by decide),
   ((vit5_date_repair.2.2.2.1 '4' '5' '6' '7' '8' '9' '0').2 (by decide)).2 (by decide),
   (vit5_date_repair.2.2.2.2.2.1 '2' '0' '6').1 (by decide)⟩

/-! ## `clean_text` idempotence: collapse lemmas -/

theorem head?_dropWhile_false (p : Char → Bool) (t : List Char) (d : Char)
    (h : (t.dropWhile p).head? = some d) : p d = false := by
  cases hdw : t.dropWhile p with
  | nil => rw [hdw] at h; simp at h
  | cons d' t' =>
    rw [hdw] at h
    simp only [List.head?_cons, Option.some.injEq] at h
    subst h
    have hne : t.dropWhile p ≠ [] := by simp [hdw]
    have hnot := List.head_dropWhile_not p t hne
    have hh : (t.dropWhile p).head hne = d' := by simp [hdw]
    rw [hh] at hnot
    simpa using hnot

theorem collapseRun_head? (p : Char → Bool) (r : Char) (l : List Char) :
    (collapseRun p r l).head? = l.head?.map (fun c => if p c then r else c) := by
  cases l with
  | nil => simp [collapseRun]
  | cons c t => by_cases h : p c <;> simp [collapseRun, h]

theorem collapseRun_mem (p : Char → Bool) (r : Char) (l : List Char) :
    ∀ c ∈ collapseRun p r l, c = r ∨ (c ∈ l ∧ p c = false) := by
  induction l using collapseRun.induct p r with
  | case1 => simp [collapseRun]
  | case2 c t hp ih =>
    intro x hx
    rw [collapseRun, if_pos hp] at hx
    rcases List.mem_cons.1 hx with h | h
    · exact Or.inl h
    · rcases ih x h with h' | ⟨hmem, hfalse⟩
      · exact Or.inl h'
      · exact Or.inr
          ⟨List.mem_cons_of_mem c (List.IsSuffix.subset (List.dropWhile_suffix p) hmem), hfalse⟩
  | case3 c t hp ih =>
    intro x hx
    rw [collapseRun, if_neg hp] at hx
    rcases List.mem_cons.1 hx with h | h
    · subst h
      exact Or.inr ⟨List.mem_cons_self _ _, by simpa using hp⟩
    · rcases ih x h with h' | ⟨hmem, hfalse⟩
      · exact Or.inl h'
      · exact Or.inr ⟨List.mem_cons_of_mem c hmem, hfalse⟩

theorem collapseRun_chain' (p : Char → Bool) (r : Char) (l : List Char) :
    List.Chain' (fun a b => ¬(p a = true ∧ p b = true)) (collapseRun p r l) := by
  induction l using collapseRun.induct p r with
  | case1 => rw [collapseRun]; exact List.chain'_nil
  | case2 c t hp ih =>
    rw [collapseRun, if_pos hp]
    refine List.chain'_cons'.2 ⟨?_, ih⟩
    intro y hy
    rw [collapseRun_head?] at hy
    rcases Option.map_eq_some'.1 hy with ⟨d, hd, hdy⟩
    have hpd : p d = false := head?_dropWhile_false p t d hd
    rw [hpd] at hdy
    simp only [Bool.false_eq_true, if_false] at hdy
    subst hdy
    simp [hpd]
  | case3 c t hp ih =>
    rw [collapseRun, if_neg hp]
    refine List.chain'_cons'.2 ⟨?_, ih⟩
    intro y _
    simp [hp]

theorem collapseRun_chain'_preserve (p : Char → Bool) (r : Char)
    (R : Char → Char → Prop) (l : List Char) (hl : List.Chain' R l)
    (h1 : ∀ x, R r x) (h2 : ∀ x, R x r) :
    List.Chain' R (collapseRun p r l) := by
  induction l using collapseRun.induct p r with
  | case1 => rw [collapseRun]; exact List.chain'_nil
  | case2 c t hp ih =>
    rw [collapseRun, if_pos hp]
    refine List.chain'_cons'.2 ⟨fun y _ => h1 y, ?_⟩
    exact ih (List.Chain'.suffix ((List.chain'_cons'.1 hl).2) (List.dropWhile_suffix p))
  | case3 c t hp ih =>
    rw [collapseRun, if_neg hp]
    obtain ⟨hhead, htail⟩ := List.chain'_cons'.1 hl
    refine List.chain'_cons'.2 ⟨?_, ih htail⟩
    intro y hy
    rw [collapseRun_head?] at hy
    rcases Option.map_eq_some'.1 hy with ⟨d, hd, hdy⟩
    by_cases hpd : p d
    · rw [if_pos hpd] at hdy
      subst hdy
      exact h2 c
    · rw [if_neg hpd] at hdy
      subst hdy
      exact hhead d hd

theorem collapseRun_fix (p : Char → Bool) (r : Char) (l : List Char)
    (hmem : ∀ c ∈ l, p c = true → c = r)
    (hch : List.Chain' (fun a b => ¬(p a = true ∧ p b = true)) l) :
    collapseRun p r l = l := by
  induction l using collapseRun.induct p r with
  | case1 => rw [collapseRun]
  | case2 c t hp ih =>
    have hcr : c = r := hmem c (List.mem_cons_self _ _) hp
    have hdw : t.dropWhile p = t := by
      cases t with
      | nil => rfl
      | cons d t' =>
        have hpair := (List.chain'_cons'.1 hch).1 d (by simp)
        have hpd : ¬p d = true := fun hpd => hpair ⟨hp, hpd⟩
        exact List.dropWhile_cons_of_neg hpd
    rw [hdw] at ih
    rw [collapseRun, if_pos hp, hdw,
      ih (fun x hx hpx => hmem x (List.mem_cons_of_mem _ hx) hpx)
        (List.chain'_cons'.1 hch).2, hcr]
  | case3 c t hp ih =>
    rw [collapseRun, if_neg hp]
    rw [ih (fun c hc hpc => hmem c (List.mem_cons_of_mem _ hc) hpc)
      (List.chain'_cons'.1 hch).2]

theorem subCRLF_fix (l : List Char) (h : '\r' ∉ l) : subCRLF l = l := by
  induction l using subCRLF.induct with
  | case1 => rfl
  | case2 c => rfl
  | case3 c d t hcond _ =>
    exact absurd (hcond.1 ▸ List.mem_cons_self c _) h
  | case4 c d t hcond ih =>
    rw [subCRLF, if_neg hcond, ih (fun hm => h (List.mem_cons_of_mem c hm))]

/-! ## `clean_text` idempotence: split, join and strip lemmas -/

theorem splitOnP_pieces (p : Char → Bool) :
    ∀ l : List Char,
      (∀ s, (l.splitOnP p).head? = some s → s <+: l ∧ ∀ c ∈ s, p c = false) ∧
      (∀ s ∈ (l.splitOnP p).tail, s <:+: l ∧ ∀ c ∈ s, p c = false) := by
  intro l
  induction l with
  | nil =>
    rw [List.splitOnP_nil]
    constructor
    · intro s hs
      simp only [List.head?_cons, Option.some.injEq] at hs
      subst hs
      exact ⟨⟨[], rfl⟩, by simp⟩
    · intro s hs
      simp at hs
  | cons a l ih =>
    rw [List.splitOnP_cons]
    by_cases hp : p a
    · rw [if_pos hp]
      constructor
      · intro s hs
        simp only [List.head?_cons, Option.some.injEq] at hs
        subst hs
        exact ⟨⟨a :: l, rfl⟩, by simp⟩
      · intro s hs
        simp only [List.tail_cons] at hs
        cases hsp : l.splitOnP p with
        | nil => exact absurd hsp (List.splitOnP_ne_nil p l)
        | cons s₀ rest =>
          rw [hsp] at hs
          rcases List.mem_cons.1 hs with rfl | h
          · obtain ⟨hpre, hprops⟩ := ih.1 s (by rw [hsp]; rfl)
            exact ⟨List.infix_cons (List.IsPrefix.isInfix hpre), hprops⟩
          · obtain ⟨hinf, hprops⟩ := ih.2 s (by rw [hsp]; exact h)
            exact ⟨List.infix_cons hinf, hprops⟩
    · rw [if_neg hp]
      cases hsp : l.splitOnP p with
      | nil => exact absurd hsp (List.splitOnP_ne_nil p l)
      | cons s₀ rest =>
        simp only [List.modifyHead]
        constructor
        · intro s hs
          simp only [List.head?_cons, Option.some.injEq] at hs
          subst hs
          obtain ⟨⟨t, ht⟩, hprops⟩ := ih.1 s₀ (by rw [hsp]; rfl)
          refine ⟨⟨t, by rw [List.cons_append, ht]⟩, ?_⟩
          intro c hc
          rcases List.mem_cons.1 hc with rfl | hc'
          · simpa using hp
          · exact hprops c hc'
        · intro s hs
          simp only [List.tail_cons] at hs
          obtain ⟨hinf, hprops⟩ := ih.2 s (by rw [hsp]; exact hs)
          exact ⟨List.infix_cons hinf, hprops⟩

theorem splitOnP_pieces_mem (p : Char → Bool) (l : List Char) (s : List Char)
    (hs : s ∈ l.splitOnP p) : s <:+: l ∧ ∀ c ∈ s, p c = false := by
  cases hsp : l.splitOnP p with
  | nil => exact absurd hsp (List.splitOnP_ne_nil p l)
  | cons s₀ rest =>
    rw [hsp] at hs
    rcases List.mem_cons.1 hs with rfl | h
    · obtain ⟨hpre, hprops⟩ := (splitOnP_pieces p l).1 s (by rw [hsp]; rfl)
      exact ⟨List.IsPrefix.isInfix hpre, hprops⟩
    · exact (splitOnP_pieces p l).2 s (by rw [hsp]; exact h)

theorem intercalateNL_nil : List.intercalate ['\n'] ([] : List (List Char)) = [] := by
  simp [List.intercalate]

theorem intercalateNL_singleton (t : List Char) : List.intercalate ['\n'] [t] = t := by
  simp [List.intercalate]

theorem intercalateNL_cons₂ (t₁ t₂ : List Char) (rest : List (List Char)) :
    List.intercalate ['\n'] (t₁ :: t₂ :: rest)
      = t₁ ++ '\n' :: List.intercalate ['\n'] (t₂ :: rest) := by
  simp [List.intercalate, List.intersperse_cons_cons]

theorem mem_intercalateNL (L : List (List Char)) (c : Char)
    (hc : c ∈ List.intercalate ['\n'] L) : c = '\n' ∨ ∃ t ∈ L, c ∈ t := by
  induction L with
  | nil => rw [intercalateNL_nil] at hc; simp at hc
  | cons t rest ih =>
    cases rest with
    | nil =>
      rw [intercalateNL_singleton] at hc
      exact Or.inr ⟨t, by simp, hc⟩
    | cons t2 r2 =>
      rw [intercalateNL_cons₂] at hc
      rcases List.mem_append.1 hc with h | h
      · exact Or.inr ⟨t, by simp, h⟩
      · rcases List.mem_cons.1 h with h' | h'
        · exact Or.inl h'
        · rcases ih h' with h'' | ⟨u, hu, hcu⟩
          · exact Or.inl h''
          · exact Or.inr ⟨u, List.mem_cons_of_mem _ hu, hcu⟩

theorem intercalateNL_head? (t : List Char) (rest : List (List Char)) (hne : t ≠ []) :
    (List.intercalate ['\n'] (t :: rest)).head? = t.head? := by
  cases rest with
  | nil => rw [intercalateNL_singleton]
  | cons t2 r2 =>
    rw [intercalateNL_cons₂]
    exact List.head?_append_of_ne_nil t hne

theorem intercalateNL_ne_nil (t : List Char) (rest : List (List Char)) (hne : t ≠ []) :
    List.intercalate ['\n'] (t :: rest) ≠ [] := by
  intro h
  have hh := intercalateNL_head? t rest hne
  rw [h] at hh
  cases t with
  | nil => exact hne rfl
  | cons a t' => simp at hh

theorem intercalateNL_getLast? (L : List (List Char)) (hts : ∀ t ∈ L, t ≠ []) :
    L ≠ [] → ∃ t ∈ L, (List.intercalate ['\n'] L).getLast? = t.getLast? := by
  induction L with
  | nil => intro h; exact absurd rfl h
  | cons t rest ih =>
    intro _
    cases rest with
    | nil => exact ⟨t, by simp, by rw [intercalateNL_singleton]⟩
    | cons t2 r2 =>
      obtain ⟨u, hu, hul⟩ :=
        ih (fun s hs => hts s (List.mem_cons_of_mem _ hs)) (by simp)
      refine ⟨u, List.mem_cons_of_mem _ hu, ?_⟩
      have hXne : List.intercalate ['\n'] (t2 :: r2) ≠ [] :=
        intercalateNL_ne_nil t2 r2 (hts t2 (by simp))
      rw [intercalateNL_cons₂,
        List.getLast?_append_of_ne_nil t (by simp : ('\n' :: List.intercalate ['\n'] (t2 :: r2)) ≠ []),
        show ('\n' :: List.intercalate ['\n'] (t2 :: r2))
          = ['\n'] ++ List.intercalate ['\n'] (t2 :: r2) from rfl,
        List.getLast?_append_of_ne_nil _ hXne, hul]

theorem chain'_of_mem (R : Char → Char → Prop) (l : List Char)
    (h : ∀ a ∈ l, ∀ b ∈ l, R a b) : List.Chain' R l := by
  induction l with
  | nil => exact List.chain'_nil
  | cons a t ih =>
    refine List.chain'_cons'.2 ⟨?_, ?_⟩
    · intro y hy
      exact h a (by simp) y (List.mem_cons_of_mem _ (List.mem_of_mem_head? hy))
    · exact ih fun x hx y hy => h x (by simp [hx]) y (by simp [hy])

theorem intercalateNL_chain' (R : Char → Char → Prop) (L : List (List Char))
    (hch : ∀ t ∈ L, List.Chain' R t)
    (hsep : ∀ t ∈ L, ∀ c ∈ t, R c '\n' ∧ R '\n' c)
    (hts : ∀ t ∈ L, t ≠ []) :
    List.Chain' R (List.intercalate ['\n'] L) := by
  induction L with
  | nil => rw [intercalateNL_nil]; exact List.chain'_nil
  | cons t rest ih =>
    cases rest with
    | nil => rw [intercalateNL_singleton]; exact hch t (by simp)
    | cons t2 r2 =>
      rw [intercalateNL_cons₂]
      refine List.Chain'.append (hch t (by simp)) ?_ ?_
      · refine List.chain'_cons'.2 ⟨?_, ?_⟩
        · intro y hy
          rw [intercalateNL_head? t2 r2 (hts t2 (by simp))] at hy
          exact (hsep t2 (by simp) y (List.mem_of_mem_head? hy)).2
        · exact ih (fun s hs => hch s (List.mem_cons_of_mem _ hs))
            (fun s hs => hsep s (List.mem_cons_of_mem _ hs))
            (fun s hs => hts s (List.mem_cons_of_mem _ hs))
      · intro x hx y hy
        simp only [List.head?_cons, Option.mem_def, Option.some.injEq] at hy
        subst hy
        exact (hsep t (by simp) x (List.mem_of_mem_getLast? hx)).1

theorem pyStrip_within (l : List Char) : pyStrip l <:+: l := by
  have hpre : pyStrip l <+: l.dropWhile pyIsSpace := List.rdropWhile_prefix pyIsSpace _
  have hsuf : l.dropWhile pyIsSpace <:+ l := List.dropWhile_suffix pyIsSpace
  exact List.IsInfix.trans (List.IsPrefix.isInfix hpre) (List.IsSuffix.isInfix hsuf)

theorem pyStrip_head?_not (l : List Char) (c : Char)
    (h : (pyStrip l).head? = some c) : pyIsSpace c = false := by
  have hpre : pyStrip l <+: l.dropWhile pyIsSpace := List.rdropWhile_prefix pyIsSpace _
  obtain ⟨t, ht⟩ := hpre
  have hne : pyStrip l ≠ [] := by
    intro hnil
    rw [hnil] at h
    simp at h
  have : (l.dropWhile pyIsSpace).head? = some c := by
    rw [← ht, List.head?_append_of_ne_nil _ hne, h]
  exact head?_dropWhile_false pyIsSpace l c this

theorem pyStrip_getLast?_not (l : List Char) (c : Char)
    (h : (pyStrip l).getLast? = some c) : pyIsSpace c = false := by
  have hne : pyStrip l ≠ [] := by
    intro hnil
    rw [hnil] at h
    simp at h
  have hlast : ¬pyIsSpace ((pyStrip l).getLast hne) = true :=
    List.rdropWhile_last_not pyIsSpace (l.dropWhile pyIsSpace) hne
  have : (pyStrip l).getLast? = some ((pyStrip l).getLast hne) :=
    List.getLast?_eq_getLast _ hne
  rw [this] at h
  simp only [Option.some.injEq] at h
  rw [h] at hlast
  simpa using hlast

theorem pyStrip_fix (l : List Char)
    (h1 : ∀ c, l.head? = some c → pyIsSpace c = false)
    (h2 : ∀ c, l.getLast? = some c → pyIsSpace c = false) :
    pyStrip l = l := by
  have hdw : l.dropWhile pyIsSpace = l := by
    rw [List.dropWhile_eq_self_iff]
    intro hl
    have : l.head? = some (l.get ⟨0, hl⟩) := by
      cases l with
      | nil => simp at hl
      | cons a t => rfl
    simpa using h1 _ this
  unfold pyStrip
  rw [hdw, List.rdropWhile_eq_self_iff]
  intro hl
  have : l.getLast? = some (l.getLast hl) := List.getLast?_eq_getLast _ hl
  simpa using h2 _ this

/-! ## `clean_text` idempotence: assembly -/

theorem clean_text_chars_nil : clean_text_chars [] = [] := by
  simp [clean_text_chars, subCRLF, collapseRun, List.splitOn, List.splitOnP_nil, pyStrip,
    List.intercalate]

theorem cleanLines_good (l : List Char) :
    ∀ t ∈ cleanLines l,
      t ≠ [] ∧
      (∀ c ∈ t, c ≠ '\n' ∧ c ≠ '\r' ∧ c ≠ '\t') ∧
      List.Chain' (fun a b => ¬(isST a = true ∧ isST b = true)) t ∧
      (∀ c, t.head? = some c → pyIsSpace c = false) ∧
      (∀ c, t.getLast? = some c → pyIsSpace c = false) := by
  intro t ht
  simp only [cleanLines, List.mem_filter, List.mem_map, decide_eq_true_eq] at ht
  obtain ⟨⟨s, hs, rfl⟩, htne⟩ := ht
  set base := (subCRLF l).map fun c => if c = '\r' then '\n' else c with hbase
  set l3 := collapseRun isST ' ' base with hl3
  set y := collapseRun isNL '\n' l3 with hy
  have hyr : '\r' ∉ y := by
    intro hmem
    rcases collapseRun_mem isNL '\n' l3 '\r' hmem with h | ⟨h3, _⟩
    · exact absurd h (by decide)
    · rcases collapseRun_mem isST ' ' base '\r' h3 with h | ⟨hb, _⟩
      · exact absurd h (by decide)
      · rcases List.mem_map.1 hb with ⟨x, _, hx⟩
        by_cases hxr : x = '\r'
        · rw [if_pos hxr] at hx
          exact absurd hx (by decide)
        · rw [if_neg hxr] at hx
          exact hxr (hx)
  have hyt : '\t' ∉ y := by
    intro hmem
    rcases collapseRun_mem isNL '\n' l3 '\t' hmem with h | ⟨h3, _⟩
    · exact absurd h (by decide)
    · rcases collapseRun_mem isST ' ' base '\t' h3 with h | ⟨_, hfalse⟩
      · exact absurd h (by decide)
      · exact absurd hfalse (by decide)
  have hych : List.Chain' (fun a b => ¬(isST a = true ∧ isST b = true)) y := by
    refine collapseRun_chain'_preserve isNL '\n' _ l3 (collapseRun_chain' isST ' ' base) ?_ ?_
    · intro x h
      exact absurd h.1 (by decide)
    · intro x h
      exact absurd h.2 (by decide)
  obtain ⟨hinf, hprops⟩ := splitOnP_pieces_mem (· == '\n') y s hs
  have htsub : pyStrip s <:+: y := List.IsInfix.trans (pyStrip_within s) hinf
  refine ⟨htne, ?_, List.Chain'.infix hych htsub, ?_, ?_⟩
  · intro c hc
    have hcy : c ∈ y := List.IsInfix.subset htsub hc
    have hcs : c ∈ s := List.IsInfix.subset (pyStrip_within s) hc
    refine ⟨?_, fun hr => hyr (hr ▸ hcy), fun hta => hyt (hta ▸ hcy)⟩
    intro hn
    have := hprops c hcs
    rw [hn] at this
    simp at this
  · intro c hc
    exact pyStrip_head?_not s c hc
  · intro c hc
    exact pyStrip_getLast?_not s c hc

theorem clean_text_chars_eq (l : List Char) :
    clean_text_chars l = List.intercalate ['\n'] (cleanLines l) := by
  show pyStrip (List.intercalate ['\n'] (cleanLines l))
    = List.intercalate ['\n'] (cleanLines l)
  cases hL : cleanLines l with
  | nil => rw [intercalateNL_nil]; rfl
  | cons t rest =>
    have hgood := cleanLines_good l
    rw [hL] at hgood
    have htne : t ≠ [] := (hgood t (by simp)).1
    refine pyStrip_fix _ ?_ ?_
    · intro c hc
      rw [intercalateNL_head? t rest htne] at hc
      exact (hgood t (by simp)).2.2.2.1 c hc
    · intro c hc
      obtain ⟨u, hu, hul⟩ := intercalateNL_getLast? (t :: rest)
        (fun s hsm => (hgood s hsm).1) (by simp)
      rw [hul] at hc
      exact (hgood u hu).2.2.2.2 c hc

theorem cleanLines_of_good (L : List (List Char))
    (hne : ∀ t ∈ L, t ≠ [])
    (hchars : ∀ t ∈ L, ∀ c ∈ t, c ≠ '\n' ∧ c ≠ '\r' ∧ c ≠ '\t')
    (hst : ∀ t ∈ L, List.Chain' (fun a b => ¬(isST a = true ∧ isST b = true)) t)
    (hhead : ∀ t ∈ L, ∀ c, t.head? = some c → pyIsSpace c = false)
    (hlast : ∀ t ∈ L, ∀ c, t.getLast? = some c → pyIsSpace c = false) :
    cleanLines (List.intercalate ['\n'] L) = L := by
  cases hLnil : L with
  | nil =>
    rw [intercalateNL_nil]
    simp [cleanLines, subCRLF, collapseRun, List.splitOn, List.splitOnP_nil, pyStrip]
  | cons t₀ rest₀ =>
    rw [← hLnil]
    set z := List.intercalate ['\n'] L with hz
    have hzmem : ∀ c ∈ z, c = '\n' ∨ ∃ t ∈ L, c ∈ t := fun c hc => mem_intercalateNL L c hc
    have hzr : '\r' ∉ z := by
      intro hmem
      rcases hzmem '\r' hmem with h | ⟨t, ht, hct⟩
      · exact absurd h (by decide)
      · exact (hchars t ht '\r' hct).2.1 rfl
    have ha : subCRLF z = z := subCRLF_fix z hzr
    have hb : z.map (fun c => if c = '\r' then '\n' else c) = z := by
      have := List.map_congr_left (l := z)
        (f := fun c => if c = '\r' then '\n' else c) (g := id) ?_
      · rw [this, List.map_id]
      · intro c hc
        have : c ≠ '\r' := fun h => hzr (h ▸ hc)
        simp [this]
    have hc3 : collapseRun isST ' ' z = z := by
      refine collapseRun_fix isST ' ' z ?_ ?_
      · intro c hcz hstc
        rcases hzmem c hcz with h | ⟨t, ht, hct⟩
        · rw [h] at hstc
          exact absurd hstc (by decide)
        · have hnt := (hchars t ht c hct).2.2
          rcases (by simpa [isST] using hstc : c = ' ' ∨ c = '\t') with h' | h'
          · exact h'
          · exact absurd h' hnt
      · refine intercalateNL_chain' _ L hst ?_ hne
        intro t ht c _
        constructor
        · intro hcontra
          exact absurd hcontra.2 (by decide)
        · intro hcontra
          exact absurd hcontra.1 (by decide)
    have hc4 : collapseRun isNL '\n' z = z := by
      refine collapseRun_fix isNL '\n' z ?_ ?_
      · intro c _ hnlc
        exact (by simpa [isNL] using hnlc : c = '\n')
      · refine intercalateNL_chain' _ L ?_ ?_ hne
        · intro t ht
          refine chain'_of_mem _ t ?_
          intro a ha b _
          intro hcontra
          exact (hchars t ht a ha).1 (by simpa [isNL] using hcontra.1 : a = '\n')
        · intro t ht c hct
          constructor
          · intro hcontra
            exact (hchars t ht c hct).1 (by simpa [isNL] using hcontra.1 : c = '\n')
          · intro hcontra
            exact (hchars t ht c hct).1 (by simpa [isNL] using hcontra.2 : c = '\n')
    have he : z.splitOn '\n' = L := by
      rw [hz]
      exact List.splitOn_intercalate L '\n'
        (fun t ht hcm => (hchars t ht '\n' hcm).1 rfl) (by rw [hLnil]; simp)
    have hf : L.map pyStrip = L := by
      have := List.map_congr_left (l := L) (f := pyStrip) (g := id) ?_
      · rw [this, List.map_id]
      · intro t ht
        exact pyStrip_fix t (hhead t ht) (hlast t ht)
    have hg : L.filter (· ≠ []) = L := by
      rw [List.filter_eq_self]
      intro t ht
      simpa using hne t ht
    rw [cleanLines, ha, hb, hc3, hc4, he, hf, hg]

/-! ## C4 -/

/-- C4: `clean_text` is idempotent: cleaning an already-cleaned text
leaves it unchanged, for every input string. -/
theorem clean_text_idempotent (x : String) :
    clean_text (clean_text x) = clean_text x := by
  have h : ∀ l : List Char, clean_text_chars (clean_text_chars l) = clean_text_chars l := by
    intro l
    rw [clean_text_chars_eq l]
    rw [clean_text_chars_eq (List.intercalate ['\n'] (cleanLines l))]
    have hgood := cleanLines_good l
    rw [cleanLines_of_good (cleanLines l)
      (fun t ht => (hgood t ht).1)
      (fun t ht => (hgood t ht).2.1)
      (fun t ht => (hgood t ht).2.2.1)
      (fun t ht => (hgood t ht).2.2.2.1)
      (fun t ht => (hgood t ht).2.2.2.2)]
  show (⟨clean_text_chars (clean_text_chars x.data)⟩ : String) = ⟨clean_text_chars x.data⟩
  rw [h x.data]

/-! ## `remove_repetition` lemmas -/

theorem joinSp_nil : joinSp [] = [] := by
  simp [joinSp, List.intercalate]

theorem joinSp_singleton (t : List Char) : joinSp [t] = t := by
  simp [joinSp, List.intercalate]

theorem joinSp_cons₂ (t₁ t₂ : List Char) (rest : List (List Char)) :
    joinSp (t₁ :: t₂ :: rest) = t₁ ++ ' ' :: joinSp (t₂ :: rest) := by
  simp [joinSp, List.intercalate, List.intersperse_cons_cons]

theorem splitOnP_of_no_p (p : Char → Bool) (w : List Char)
    (hw : ∀ c ∈ w, p c = false) : w.splitOnP p = [w] := by
  induction w with
  | nil => exact List.splitOnP_nil _
  | cons a t ih =>
    rw [List.splitOnP_cons, if_neg (by simp [hw a (by simp)]),
      ih (fun c hc => hw c (List.mem_cons_of_mem _ hc))]
    rfl

theorem splitOnP_append_sep (p : Char → Bool) (w : List Char) (c₀ : Char)
    (rest : List Char) (hw : ∀ c ∈ w, p c = false) (hc : p c₀ = true) :
    (w ++ c₀ :: rest).splitOnP p = w :: rest.splitOnP p := by
  induction w with
  | nil =>
    rw [List.nil_append, List.splitOnP_cons, if_pos hc]
  | cons a w' ih =>
    rw [List.cons_append, List.splitOnP_cons, if_neg (by simp [hw a (by simp)]),
      ih (fun c hc' => hw c (List.mem_cons_of_mem _ hc'))]
    rfl

theorem pySplit_joinSp (ws : List (List Char))
    (hne : ∀ w ∈ ws, w ≠ [])
    (hfree : ∀ w ∈ ws, ∀ c ∈ w, pyIsSpace c = false) :
    pySplitWs (joinSp ws) = ws := by
  induction ws with
  | nil =>
    rw [joinSp_nil]
    simp [pySplitWs, List.splitOnP_nil]
  | cons w rest ih =>
    cases rest with
    | nil =>
      rw [joinSp_singleton]
      unfold pySplitWs
      rw [splitOnP_of_no_p pyIsSpace w (hfree w (by simp))]
      simp [hne w (by simp)]
    | cons w2 r2 =>
      rw [joinSp_cons₂]
      unfold pySplitWs
      rw [splitOnP_append_sep pyIsSpace w ' ' _ (hfree w (by simp)) (by decide)]
      rw [List.filter_cons_of_pos (by simpa using hne w (by simp))]
      have ih' := ih (fun u hu => hne u (List.mem_cons_of_mem _ hu))
        (fun u hu => hfree u (List.mem_cons_of_mem _ hu))
      unfold pySplitWs at ih'
      rw [ih']

theorem rrl_nil (seen : List (List Char)) : removeRepLoop [] seen = [] := by
  rw [removeRepLoop]

theorem rrl_emit (w : List Char) (ws seen : List (List Char)) (phrase : List Char)
    (hph : phrase = joinSp (List.take 5 (w :: ws)))
    (hnot : phrase ∉ seen) :
    removeRepLoop (w :: ws) seen = w :: removeRepLoop ws (phrase :: seen) := by
  rw [removeRepLoop, if_neg (fun hcond => hnot (hph ▸ hcond.1)), ← hph]

theorem rrl_skip (w : List Char) (ws seen : List (List Char)) (phrase : List Char)
    (rest : List (List Char))
    (hph : phrase = joinSp (List.take 5 (w :: ws)))
    (hrest : rest = List.drop 5 (w :: ws))
    (hmem : phrase ∈ seen) (hlen : 10 ≤ phrase.length) :
    removeRepLoop (w :: ws) seen = removeRepLoop rest seen := by
  rw [removeRepLoop, if_pos ⟨hph ▸ hmem, hph ▸ hlen⟩, hrest]

/-! ## C2 -/

/-- C2: on an input text made of a 6-word phrase occurring three times
with a distinct non-repeated word between consecutive occurrences,
`remove_repetition` collapses the phrase to a single (leading) full
occurrence -- every later window that repeats the recorded 5-word phrase
is skipped -- while both non-repeated words survive in their original
relative order (the skip on re-entry leaves the stray final word `p6` of
each later occurrence). -/
theorem remove_repetition_collapse
    (p1 p2 p3 p4 p5 p6 x y : List Char)
    (hne : ∀ w ∈ ([p1, p2, p3, p4, p5, p6, x, y] : List (List Char)), w ≠ [])
    (hfree : ∀ w ∈ ([p1, p2, p3, p4, p5, p6, x, y] : List (List Char)), ∀ c ∈ w, pyIsSpace c = false)
    (hdist : ([p1, p2, p3, p4, p5, p6, x, y] : List (List Char)).Pairwise (· ≠ ·))
    (hlen : 10 ≤ (joinSp [p1, p2, p3, p4, p5]).length) :
    remove_repetition ⟨joinSp [p1, p2, p3, p4, p5, p6, x, p1, p2, p3, p4, p5, p6, y, p1, p2, p3, p4, p5, p6]⟩ = ⟨joinSp [p1, p2, p3, p4, p5, p6, x, p6, y, p6]⟩ ∧
    [p1, p2, p3, p4, p5, p6] <+: [p1, p2, p3, p4, p5, p6, x, p6, y, p6] ∧
    (∀ i : Nat, [p1, p2, p3, p4, p5, p6] <+: List.drop i [p1, p2, p3, p4, p5, p6, x, p6, y, p6] → i = 0) ∧
    List.filter (fun w => w == x || w == y) [p1, p2, p3, p4, p5, p6, x, p6, y, p6] = [x, y] := by
  have hmemall : ∀ w ∈ ([p1, p2, p3, p4, p5, p6, x, p1, p2, p3, p4, p5, p6, y, p1, p2, p3, p4, p5, p6] : List (List Char)), w ∈ ([p1, p2, p3, p4, p5, p6, x, y] : List (List Char)) := by
    intro w hw
    fin_cases hw <;> simp
  simp only [List.pairwise_cons, List.mem_cons, List.not_mem_nil, or_false,
    forall_eq_or_imp, forall_eq] at hdist
  obtain ⟨⟨n12, n13, n14, n15, n16, n1x, n1y⟩, ⟨n23, n24, n25, n26, n2x, n2y⟩,
    ⟨n34, n35, n36, n3x, n3y⟩, ⟨n45, n46, n4x, n4y⟩, ⟨n56, n5x, n5y⟩,
    ⟨n6x, n6y⟩, nxy, -⟩ := hdist
  have hinj : ∀ u v : List (List Char),
      (∀ w ∈ u, w ∈ ([p1, p2, p3, p4, p5, p6, x, y] : List (List Char))) → (∀ w ∈ v, w ∈ ([p1, p2, p3, p4, p5, p6, x, y] : List (List Char))) →
      joinSp u = joinSp v → u = v := by
    intro u v hu hv h
    have hru := pySplit_joinSp u (fun w hw => hne w (hu w hw))
      (fun w hw => hfree w (hu w hw))
    have hrv := pySplit_joinSp v (fun w hw => hne w (hv w hw))
      (fun w hw => hfree w (hv w hw))
    rw [← hru, ← hrv, h]
  have M0 : ∀ w ∈ ([p1, p2, p3, p4, p5] : List (List Char)), w ∈ ([p1, p2, p3, p4, p5, p6, x, y] : List (List Char)) := by
    intro w hw
    fin_cases hw <;> simp
  have M1 : ∀ w ∈ ([p2, p3, p4, p5, p6] : List (List Char)), w ∈ ([p1, p2, p3, p4, p5, p6, x, y] : List (List Char)) := by
    intro w hw
    fin_cases hw <;> simp
  have M2 : ∀ w ∈ ([p3, p4, p5, p6, x] : List (List Char)), w ∈ ([p1, p2, p3, p4, p5, p6, x, y] : List (List Char)) := by
    intro w hw
    fin_cases hw <;> simp
  have M3 : ∀ w ∈ ([p4, p5, p6, x, p1] : List (List Char)), w ∈ ([p1, p2, p3, p4, p5, p6, x, y] : List (List Char)) := by
    intro w hw
    fin_cases hw <;> simp
  have M4 : ∀ w ∈ ([p5, p6, x, p1, p2] : List (List Char)), w ∈ ([p1, p2, p3, p4, p5, p6, x, y] : List (List Char)) := by
    intro w hw
    fin_cases hw <;> simp
  have M5 : ∀ w ∈ ([p6, x, p1, p2, p3] : List (List Char)), w ∈ ([p1, p2, p3, p4, p5, p6, x, y] : List (List Char)) := by
    intro w hw
    fin_cases hw <;> simp
  have M6 : ∀ w ∈ ([x, p1, p2, p3, p4] : List (List Char)), w ∈ ([p1, p2, p3, p4, p5, p6, x, y] : List (List Char)) := by
    intro w hw
    fin_cases hw <;> simp
  have M7 : ∀ w ∈ ([p6, y, p1, p2, p3] : List (List Char)), w ∈ ([p1, p2, p3, p4, p5, p6, x, y] : List (List Char)) := by
    intro w hw
    fin_cases hw <;> simp
  have M8 : ∀ w ∈ ([y, p1, p2, p3, p4] : List (List Char)), w ∈ ([p1, p2, p3, p4, p5, p6, x, y] : List (List Char)) := by
    intro w hw
    fin_cases hw <;> simp
  have M9 : ∀ w ∈ ([p6] : List (List Char)), w ∈ ([p1, p2, p3, p4, p5, p6, x, y] : List (List Char)) := by
    intro w hw
    fin_cases hw
    simp
  have N1 : joinSp [p2, p3, p4, p5, p6] ∉ [joinSp [p1, p2, p3, p4, p5]] := by
    intro hmem
    simp only [List.mem_cons, List.not_mem_nil, or_false] at hmem
    exact absurd (hinj _ _ M1 M0 hmem) (by simp [Ne.symm n12])
  have N2 : joinSp [p3, p4, p5, p6, x] ∉ [joinSp [p2, p3, p4, p5, p6], joinSp [p1, p2, p3, p4, p5]] := by
    intro hmem
    simp only [List.mem_cons, List.not_mem_nil, or_false] at hmem
    rcases hmem with h | h
    · exact absurd (hinj _ _ M2 M1 h) (by simp [Ne.symm n23])
    · exact absurd (hinj _ _ M2 M0 h) (by simp [Ne.symm n13])
  have N3 : joinSp [p4, p5, p6, x, p1] ∉ [joinSp [p3, p4, p5, p6, x], joinSp [p2, p3, p4, p5, p6], joinSp [p1, p2, p3, p4, p5]] := by
    intro hmem
    simp only [List.mem_cons, List.not_mem_nil, or_false] at hmem
    rcases hmem with h | h | h
    · exact absurd (hinj _ _ M3 M2 h) (by simp [Ne.symm n34])
    · exact absurd (hinj _ _ M3 M1 h) (by simp [Ne.symm n24])
    · exact absurd (hinj _ _ M3 M0 h) (by simp [Ne.symm n14])
  have N4 : joinSp [p5, p6, x, p1, p2] ∉ [joinSp [p4, p5, p6, x, p1], joinSp [p3, p4, p5, p6, x], joinSp [p2, p3, p4, p5, p6], joinSp [p1, p2, p3, p4, p5]] := by
    intro hmem
    simp only [List.mem_cons, List.not_mem_nil, or_false] at hmem
    rcases hmem with h | h | h | h
    · exact absurd (hinj _ _ M4 M3 h) (by simp [Ne.symm n45])
    · exact absurd (hinj _ _ M4 M2 h) (by simp [Ne.symm n35])
    · exact absurd (hinj _ _ M4 M1 h) (by simp [Ne.symm n25])
    · exact absurd (hinj _ _ M4 M0 h) (by simp [Ne.symm n15])
  have N5 : joinSp [p6, x, p1, p2, p3] ∉ [joinSp [p5, p6, x, p1, p2], joinSp [p4, p5, p6, x, p1], joinSp [p3, p4, p5, p6, x], joinSp [p2, p3, p4, p5, p6], joinSp [p1, p2, p3, p4, p5]] := by
    intro hmem
    simp only [List.mem_cons, List.not_mem_nil, or_false] at hmem
    rcases hmem with h | h | h | h | h
    · exact absurd (hinj _ _ M5 M4 h) (by simp [Ne.symm n56])
    · exact absurd (hinj _ _ M5 M3 h) (by simp [Ne.symm n46])
    · exact absurd (hinj _ _ M5 M2 h) (by simp [Ne.symm n36])
    · exact absurd (hinj _ _ M5 M1 h) (by simp [Ne.symm n26])
    · exact absurd (hinj _ _ M5 M0 h) (by simp [Ne.symm n16])
  have N6 : joinSp [x, p1, p2, p3, p4] ∉ [joinSp [p6, x, p1, p2, p3], joinSp [p5, p6, x, p1, p2], joinSp [p4, p5, p6, x, p1], joinSp [p3, p4, p5, p6, x], joinSp [p2, p3, p4, p5, p6], joinSp [p1, p2, p3, p4, p5]] := by
    intro hmem
    simp only [List.mem_cons, List.not_mem_nil, or_false] at hmem
    rcases hmem with h | h | h | h | h | h
    · exact absurd (hinj _ _ M6 M5 h) (by simp [Ne.symm n6x])
    · exact absurd (hinj _ _ M6 M4 h) (by simp [Ne.symm n5x])
    · exact absurd (hinj _ _ M6 M3 h) (by simp [Ne.symm n4x])
    · exact absurd (hinj _ _ M6 M2 h) (by simp [Ne.symm n3x])
    · exact absurd (hinj _ _ M6 M1 h) (by simp [Ne.symm n2x])
    · exact absurd (hinj _ _ M6 M0 h) (by simp [Ne.symm n1x])
  have N7 : joinSp [p6, y, p1, p2, p3] ∉ [joinSp [x, p1, p2, p3, p4], joinSp [p6, x, p1, p2, p3], joinSp [p5, p6, x, p1, p2], joinSp [p4, p5, p6, x, p1], joinSp [p3, p4, p5, p6, x], joinSp [p2, p3, p4, p5, p6], joinSp [p1, p2, p3, p4, p5]] := by
    intro hmem
    simp only [List.mem_cons, List.not_mem_nil, or_false] at hmem
    rcases hmem with h | h | h | h | h | h | h
    · exact absurd (hinj _ _ M7 M6 h) (by simp [n6x])
    · exact absurd (hinj _ _ M7 M5 h) (by simp [Ne.symm nxy])
    · exact absurd (hinj _ _ M7 M4 h) (by simp [Ne.symm n56])
    · exact absurd (hinj _ _ M7 M3 h) (by simp [Ne.symm n46])
    · exact absurd (hinj _ _ M7 M2 h) (by simp [Ne.symm n36])
    · exact absurd (hinj _ _ M7 M1 h) (by simp [Ne.symm n26])
    · exact absurd (hinj _ _ M7 M0 h) (by simp [Ne.symm n16])
  have N8 : joinSp [y, p1, p2, p3, p4] ∉ [joinSp [p6, y, p1, p2, p3], joinSp [x, p1, p2, p3, p4], joinSp [p6, x, p1, p2, p3], joinSp [p5, p6, x, p1, p2], joinSp [p4, p5, p6, x, p1], joinSp [p3, p4, p5, p6, x], joinSp [p2, p3, p4, p5, p6], joinSp [p1, p2, p3, p4, p5]] := by
    intro hmem
    simp only [List.mem_cons, List.not_mem_nil, or_false] at hmem
    rcases hmem with h | h | h | h | h | h | h | h
    · exact absurd (hinj _ _ M8 M7 h) (by simp [Ne.symm n6y])
    · exact absurd (hinj _ _ M8 M6 h) (by simp [Ne.symm nxy])
    · exact absurd (hinj _ _ M8 M5 h) (by simp [Ne.symm n6y])
    · exact absurd (hinj _ _ M8 M4 h) (by simp [Ne.symm n5y])
    · exact absurd (hinj _ _ M8 M3 h) (by simp [Ne.symm n4y])
    · exact absurd (hinj _ _ M8 M2 h) (by simp [Ne.symm n3y])
    · exact absurd (hinj _ _ M8 M1 h) (by simp [Ne.symm n2y])
    · exact absurd (hinj _ _ M8 M0 h) (by simp [Ne.symm n1y])
  have N9 : joinSp [p6] ∉ [joinSp [y, p1, p2, p3, p4], joinSp [p6, y, p1, p2, p3], joinSp [x, p1, p2, p3, p4], joinSp [p6, x, p1, p2, p3], joinSp [p5, p6, x, p1, p2], joinSp [p4, p5, p6, x, p1], joinSp [p3, p4, p5, p6, x], joinSp [p2, p3, p4, p5, p6], joinSp [p1, p2, p3, p4, p5]] := by
    intro hmem
    simp only [List.mem_cons, List.not_mem_nil, or_false] at hmem
    rcases hmem with h | h | h | h | h | h | h | h | h
    · exact absurd (hinj _ _ M9 M8 h) (by simp)
    · exact absurd (hinj _ _ M9 M7 h) (by simp)
    · exact absurd (hinj _ _ M9 M6 h) (by simp)
    · exact absurd (hinj _ _ M9 M5 h) (by simp)
    · exact absurd (hinj _ _ M9 M4 h) (by simp)
    · exact absurd (hinj _ _ M9 M3 h) (by simp)
    · exact absurd (hinj _ _ M9 M2 h) (by simp)
    · exact absurd (hinj _ _ M9 M1 h) (by simp)
    · exact absurd (hinj _ _ M9 M0 h) (by simp)
  have htrace : removeRepLoop [p1, p2, p3, p4, p5, p6, x, p1, p2, p3, p4, p5, p6, y, p1, p2, p3, p4, p5, p6] [] = [p1, p2, p3, p4, p5, p6, x, p6, y, p6] := by
    rw [rrl_emit p1 [p2, p3, p4, p5, p6, x, p1, p2, p3, p4, p5, p6, y, p1, p2, p3, p4, p5, p6] _ (joinSp [p1, p2, p3, p4, p5]) rfl (List.not_mem_nil _)]
    rw [rrl_emit p2 [p3, p4, p5, p6, x, p1, p2, p3, p4, p5, p6, y, p1, p2, p3, p4, p5, p6] _ (joinSp [p2, p3, p4, p5, p6]) rfl N1]
    rw [rrl_emit p3 [p4, p5, p6, x, p1, p2, p3, p4, p5, p6, y, p1, p2, p3, p4, p5, p6] _ (joinSp [p3, p4, p5, p6, x]) rfl N2]
    rw [rrl_emit p4 [p5, p6, x, p1, p2, p3, p4, p5, p6, y, p1, p2, p3, p4, p5, p6] _ (joinSp [p4, p5, p6, x, p1]) rfl N3]
    rw [rrl_emit p5 [p6, x, p1, p2, p3, p4, p5, p6, y, p1, p2, p3, p4, p5, p6] _ (joinSp [p5, p6, x, p1, p2]) rfl N4]
    rw [rrl_emit p6 [x, p1, p2, p3, p4, p5, p6, y, p1, p2, p3, p4, p5, p6] _ (joinSp [p6, x, p1, p2, p3]) rfl N5]
    rw [rrl_emit x [p1, p2, p3, p4, p5, p6, y, p1, p2, p3, p4, p5, p6] _ (joinSp [x, p1, p2, p3, p4]) rfl N6]
    rw [rrl_skip p1 [p2, p3, p4, p5, p6, y, p1, p2, p3, p4, p5, p6] _ (joinSp [p1, p2, p3, p4, p5]) [p6, y, p1, p2, p3, p4, p5, p6] rfl rfl (by simp) hlen]
    rw [rrl_emit p6 [y, p1, p2, p3, p4, p5, p6] _ (joinSp [p6, y, p1, p2, p3]) rfl N7]
    rw [rrl_emit y [p1, p2, p3, p4, p5, p6] _ (joinSp [y, p1, p2, p3, p4]) rfl N8]
    rw [rrl_skip p1 [p2, p3, p4, p5, p6] _ (joinSp [p1, p2, p3, p4, p5]) [p6] rfl rfl (by simp) hlen]
    rw [rrl_emit p6 [] _ (joinSp [p6]) rfl N9]
    rw [rrl_nil]
  refine ⟨?_, ⟨[x, p6, y, p6], rfl⟩, ?_, ?_⟩
  · show (⟨joinSp (removeRepLoop (pySplitWs (joinSp [p1, p2, p3, p4, p5, p6, x, p1, p2, p3, p4, p5, p6, y, p1, p2, p3, p4, p5, p6])) [])⟩ : String)
      = ⟨joinSp [p1, p2, p3, p4, p5, p6, x, p6, y, p6]⟩
    rw [pySplit_joinSp _ (fun w hw => hne w (hmemall w hw))
      (fun w hw => hfree w (hmemall w hw)), htrace]
  · intro i h
    have hl6 := List.IsPrefix.length_le h
    simp only [List.length_drop, List.length_cons, List.length_nil] at hl6
    have hi4 : i ≤ 4 := by omega
    interval_cases i
    · rfl
    · obtain ⟨t, ht⟩ := h
      have ht2 : p1 :: p2 :: p3 :: p4 :: p5 :: p6 :: t = [p2, p3, p4, p5, p6, x, p6, y, p6] := ht
      simp only [List.cons.injEq] at ht2
      exact absurd ht2.1 n12
    · obtain ⟨t, ht⟩ := h
      have ht2 : p1 :: p2 :: p3 :: p4 :: p5 :: p6 :: t = [p3, p4, p5, p6, x, p6, y, p6] := ht
      simp only [List.cons.injEq] at ht2
      exact absurd ht2.1 n13
    · obtain ⟨t, ht⟩ := h
      have ht2 : p1 :: p2 :: p3 :: p4 :: p5 :: p6 :: t = [p4, p5, p6, x, p6, y, p6] := ht
      simp only [List.cons.injEq] at ht2
      exact absurd ht2.1 n14
    · obtain ⟨t, ht⟩ := h
      have ht2 : p1 :: p2 :: p3 :: p4 :: p5 :: p6 :: t = [p5, p6, x, p6, y, p6] := ht
      simp only [List.cons.injEq] at ht2
      exact absurd ht2.1 n15
  · simp [n1x, n1y, n2x, n2y, n3x, n3y, n4x, n4y, n5x, n5y, n6x, n6y]

/-- C2 witness: the collapse theorem applied to concrete two-letter
words. -/
theorem remove_repetition_collapse_witness :
    remove_repetition ⟨joinSp ["aa".data, "bb".data, "cc".data, "dd".data, "ee".data,
      "ff".data, "uu".data, "aa".data, "bb".data, "cc".data, "dd".data, "ee".data,
      "ff".data, "vv".data, "aa".data, "bb".data, "cc".data, "dd".data, "ee".data,
      "ff".data]⟩
      = ⟨joinSp ["aa".data, "bb".data, "cc".data, "dd".data, "ee".data, "ff".data,
        "uu".data, "ff".data, "vv".data, "ff".data]⟩ :=
  (remove_repetition_collapse ("aa".data) ("bb".data) ("cc".data) ("dd".data)
    ("ee".data) ("ff".data) ("uu".data) ("vv".data)
    (by decide) (by decide) (by decide) (by decide)).1

/-! ## Batch loop lemmas -/

theorem processRows_counts (fn : SummarizeRequest → Except String SummarizeResponse)
    (hasRef : Bool) (model : ModelType) (maxLen : Nat) :
    ∀ (i : Nat) (rows : List BatchRow),
      (processRows fn hasRef model maxLen i rows).1.length = rows.length ∧
      (processRows fn hasRef model maxLen i rows).2.1 +
        (processRows fn hasRef model maxLen i rows).2.2 = rows.length := by
  intro i rows
  induction rows generalizing i with
  | nil => simp [processRows]
  | cons row rest ih =>
    obtain ⟨ih1, ih2⟩ := ih (i + 1)
    by_cases h : (processBatchRow fn hasRef model maxLen i row).success <;>
      simp [processRows, h, ih1] <;> omega

theorem processRows_getElem (fn : SummarizeRequest → Except String SummarizeResponse)
    (hasRef : Bool) (model : ModelType) (maxLen : Nat) :
    ∀ (i : Nat) (rows : List BatchRow) (j : Nat) (row : BatchRow),
      rows[j]? = some row →
      (processRows fn hasRef model maxLen i rows).1[j]?
        = some (processBatchRow fn hasRef model maxLen (i + j) row) := by
  intro i rows
  induction rows generalizing i with
  | nil => intro j row hj; simp at hj
  | cons hd rest ih =>
    intro j row hj
    cases j with
    | zero =>
      simp only [List.getElem?_cons_zero, Option.some.injEq] at hj
      subst hj
      by_cases h : (processBatchRow fn hasRef model maxLen i hd).success <;>
        simp [processRows, h]
    | succ k =>
      simp only [List.getElem?_cons_succ] at hj
      have harith : i + (k + 1) = (i + 1) + k := by omega
      rw [harith]
      have := ih (i + 1) k row hj
      by_cases h : (processBatchRow fn hasRef model maxLen i hd).success <;>
        simpa [processRows, h] using this

theorem processBatchRow_cases (fn : SummarizeRequest → Except String SummarizeResponse)
    (hasRef : Bool) (model : ModelType) (maxLen : Nat) (i : Nat) (row : BatchRow) :
    ((processBatchRow fn hasRef model maxLen i row).success = false →
      (processBatchRow fn hasRef model maxLen i row).summary = "" ∧
      (processBatchRow fn hasRef model maxLen i row).error.isSome = true) ∧
    ((processBatchRow fn hasRef model maxLen i row).success = true →
      (processBatchRow fn hasRef model maxLen i row).error = none) ∧
    (processBatchRow fn hasRef model maxLen i row).index = i ∧
    (processBatchRow fn hasRef model maxLen i row).original_text = cellStr row.text_cell ∧
    ((processBatchRow fn hasRef model maxLen i row).success = false ↔
      ∃ e, rowOutcome fn (cellStr row.text_cell) model maxLen = .error e) := by
  cases h : rowOutcome fn (cellStr row.text_cell) model maxLen <;>
    simp [processBatchRow, h]

/-! ## C1 -/

/-- C1: `process_batch` returns exactly one `BatchItemResult` per
parsed row, in row order; a row whose processing raises is recorded as
a failure entry (`success = false`, error set, empty summary) without
aborting the remaining rows; `successful_items + failed_items` equals
the number of results; and on the concrete 5-row upload whose third
row has an empty text cell, there are exactly 5 entries with
`failed_items = 1` and the other 4 successful. -/
theorem process_batch_per_row (fn : SummarizeRequest → Except String SummarizeResponse)
    (rows : List BatchRow) (model : ModelType) (maxLen : Nat) (hasRef : Bool) :
    (process_batch fn rows model maxLen hasRef).results.length = rows.length ∧
    (process_batch fn rows model maxLen hasRef).total_items = rows.length ∧
    (process_batch fn rows model maxLen hasRef).successful_items +
      (process_batch fn rows model maxLen hasRef).failed_items = rows.length ∧
    (∀ (j : Nat) (row : BatchRow), rows[j]? = some row →
      (process_batch fn rows model maxLen hasRef).results[j]?
        = some (processBatchRow fn hasRef model maxLen j row)) ∧
    (∀ (i : Nat) (row : BatchRow),
      ((processBatchRow fn hasRef model maxLen i row).success = false →
        (processBatchRow fn hasRef model maxLen i row).summary = "" ∧
        (processBatchRow fn hasRef model maxLen i row).error.isSome = true) ∧
      (processBatchRow fn hasRef model maxLen i row).index = i ∧
      ((processBatchRow fn hasRef model maxLen i row).success = false ↔
        ∃ e, rowOutcome fn (cellStr row.text_cell) model maxLen = .error e)) ∧
    (process_batch okSummarizer sampleRows5 .vit5 256 false).total_items = 5 ∧
    (process_batch okSummarizer sampleRows5 .vit5 256 false).failed_items = 1 ∧
    (process_batch okSummarizer sampleRows5 .vit5 256 false).successful_items = 4 ∧
    ((process_batch okSummarizer sampleRows5 .vit5 256 false).results.map
      fun item => item.success) = [true, true, false, true, true] := by
  obtain ⟨hlen, hsum⟩ := processRows_counts fn hasRef model maxLen 0 rows
  refine ⟨?_, ?_, ?_, ?_, ?_, by decide, by decide, by decide, by decide⟩
  · simpa [process_batch] using hlen
  · simpa [process_batch] using hlen
  · simpa [process_batch] using hsum
  · intro j row hj
    simpa [process_batch] using processRows_getElem fn hasRef model maxLen 0 rows j row hj
  · intro i row
    obtain ⟨h1, _, h3, _, h5⟩ := processBatchRow_cases fn hasRef model maxLen i row
    exact ⟨h1, h3, h5⟩

/-- C1 witness: the general theorem applied to the concrete 5-row
scenario, with its per-row hypothesis discharged at row 3 (index 2). -/
theorem process_batch_per_row_witness :
    (process_batch okSummarizer sampleRows5 .vit5 256 false).results[2]?
      = some (processBatchRow okSummarizer false .vit5 256 2 ⟨none, none⟩) :=
  (process_batch_per_row okSummarizer sampleRows5 .vit5 256 false).2.2.2.1 2 ⟨none, none⟩
    (by decide)

/-! ## C6 -/

/-- C6: batch evaluation with `len predictions ≠ len references` is
rejected by the `/evaluation/batch` handler with a 400 length-mismatch
error, before any metric computation (the outcome does not depend on
the metric backends). -/
theorem evaluate_batch_length_mismatch (be be2 : EvalBackends)
    (request : EvaluateBatchRequest)
    (h : request.predictions.length ≠ request.references.length) :
    evaluate_batch_route be request
      = .error ⟨400, "predictions (" ++ toString request.predictions.length ++
          ") và references (" ++ toString request.references.length ++
          ") phải có cùng độ dài"⟩ ∧
    evaluate_batch_route be request = evaluate_batch_route be2 request := by
  constructor <;> simp [evaluate_batch_route, h]

/-- C6 witness: 3 predictions versus 2 references. -/
theorem evaluate_batch_length_mismatch_witness :
    evaluate_batch_route
      ⟨fun s => s, fun _ _ => ⟨0, 0, 0⟩, fun _ _ => 0, fun _ _ _ => 0⟩
      ⟨["a", "b", "c"], ["a", "b"], false, 16⟩
      = .error ⟨400, "predictions (3) và references (2) phải có cùng độ dài"⟩ :=
  (evaluate_batch_length_mismatch
    ⟨fun s => s, fun _ _ => ⟨0, 0, 0⟩, fun _ _ => 0, fun _ _ _ => 0⟩
    ⟨fun s => s, fun _ _ => ⟨0, 0, 0⟩, fun _ _ => 0, fun _ _ _ => 0⟩
    ⟨["a", "b", "c"], ["a", "b"], false, 16⟩ (by decide)).1

/-! ## C7 -/

/-- C7: the phobert_vit5 preprocessor emits at most 50 sentences: the
emitted list is exactly the first 50 (in order) of the segmented
cleaned text, and `num_sentences` equals the length of the emitted
list. -/
theorem phobert_preprocess_sentence_cap (text : String) :
    (phobert_vit5_preprocess text).sentences
      = (segment_sentences (clean_text text)).take 50 ∧
    (phobert_vit5_preprocess text).sentences.length ≤ 50 ∧
    (phobert_vit5_preprocess text).num_sentences
      = (phobert_vit5_preprocess text).sentences.length := by
  refine ⟨?_, ?_, rfl⟩
  · by_cases h : 50 < (segment_sentences (clean_text text)).length
    · simp [phobert_vit5_preprocess, h]
    · simp [phobert_vit5_preprocess, h, List.take_of_length_le (Nat.le_of_not_lt h)]
  · by_cases h : 50 < (segment_sentences (clean_text text)).length
    · simp [phobert_vit5_preprocess, h]
    · simp [phobert_vit5_preprocess, h]
      omega

/-! ## C8 -/

/-- C8: both factories fail with the unknown-model `ValueError` on any
key that is not registered in the respective dictionary, and succeed
on every registered key. -/
theorem factory_unknown_key (k : String) :
    (k ∉ preprocessorKeys → get_preprocessor k = .error ("Unknown model type: " ++ k)) ∧
    (k ∈ preprocessorKeys → ∃ p, get_preprocessor k = .ok p) ∧
    (k ∉ postprocessorKeys → get_postprocessor k = .error ("Unknown model type: " ++ k)) ∧
    (k ∈ postprocessorKeys → ∃ p, get_postprocessor k = .ok p) := by
  refine ⟨?_, ?_, ?_, ?_⟩
  · intro hk
    simp only [preprocessorKeys, List.mem_cons, List.not_mem_nil, or_false] at hk
    push_neg at hk
    obtain ⟨h1, h2, h3⟩ := hk
    simp [get_preprocessor, h1, h2, h3]
  · intro hk
    simp only [preprocessorKeys, List.mem_cons, List.not_mem_nil, or_false] at hk
    rcases hk with h | h | h <;> subst h <;> exact ⟨_, rfl⟩
  · intro hk
    simp only [postprocessorKeys, List.mem_cons, List.not_mem_nil, or_false] at hk
    push_neg at hk
    obtain ⟨h1, h2, h3, h4⟩ := hk
    simp [get_postprocessor, h1, h2, h3, h4]
  · intro hk
    simp only [postprocessorKeys, List.mem_cons, List.not_mem_nil, or_false] at hk
    rcases hk with h | h | h | h <;> subst h <;> exact ⟨_, rfl⟩

/-- C8 witness: the unregistered key "made_up_model" fails in both
factories; the registered keys "vit5" (preprocessor) and
"phobert_vit5_paraphrase" (postprocessor) succeed. -/
theorem factory_unknown_key_witness :
    get_preprocessor "made_up_model" = .error ("Unknown model type: made_up_model") ∧
    get_postprocessor "made_up_model" = .error ("Unknown model type: made_up_model") ∧
    (∃ p, get_preprocessor "vit5" = .ok p) ∧
    (∃ p, get_postprocessor "phobert_vit5_paraphrase" = .ok p) :=
  ⟨(factory_unknown_key "made_up_model").1 (by decide),
   (factory_unknown_key "made_up_model").2.2.1 (by decide),
   (factory_unknown_key "vit5").2.1 (by decide),
   (factory_unknown_key "phobert_vit5_paraphrase").2.2.2 (by decide)⟩

/-! ## C9 -/

/-- C9: with `calculate_bert = false`, `evaluate_single` returns the
`0.0` sentinel for `bert_score` and `evaluate_batch` for
`avg_bert_score`, ROUGE and BLEU are still computed, and the BERTScore
backend is not consulted (the result is unchanged under any
replacement of that backend). -/
theorem bert_skip_sentinel (tok : String → String)
    (rg : List String → List String → RougeScores)
    (bl : List String → List (List String) → ℚ)
    (bert bert2 : List String → List String → Nat → ℚ)
    (prediction reference : String) (predictions references : List String)
    (batch_size : Nat) :
    (evaluate_single ⟨tok, rg, bl, bert⟩ prediction reference false batch_size).bert_score = 0 ∧
    (evaluate_single ⟨tok, rg, bl, bert⟩ prediction reference false batch_size).rouge1
      = (calculate_rouge ⟨tok, rg, bl, bert⟩ [prediction] [reference]).rouge1 ∧
    (evaluate_single ⟨tok, rg, bl, bert⟩ prediction reference false batch_size).rouge2
      = (calculate_rouge ⟨tok, rg, bl, bert⟩ [prediction] [reference]).rouge2 ∧
    (evaluate_single ⟨tok, rg, bl, bert⟩ prediction reference false batch_size).rougeL
      = (calculate_rouge ⟨tok, rg, bl, bert⟩ [prediction] [reference]).rougeL ∧
    (evaluate_single ⟨tok, rg, bl, bert⟩ prediction reference false batch_size).bleu
      = calculate_bleu ⟨tok, rg, bl, bert⟩ [prediction] [reference] ∧
    evaluate_single ⟨tok, rg, bl, bert⟩ prediction reference false batch_size
      = evaluate_single ⟨tok, rg, bl, bert2⟩ prediction reference false batch_size ∧
    (evaluate_batch ⟨tok, rg, bl, bert⟩ predictions references false batch_size).avg_bert_score
      = 0 ∧
    (evaluate_batch ⟨tok, rg, bl, bert⟩ predictions references false batch_size).avg_rouge1
      = (calculate_rouge ⟨tok, rg, bl, bert⟩ predictions references).rouge1 ∧
    (evaluate_batch ⟨tok, rg, bl, bert⟩ predictions references false batch_size).avg_bleu
      = calculate_bleu ⟨tok, rg, bl, bert⟩ predictions references ∧
    evaluate_batch ⟨tok, rg, bl, bert⟩ predictions references false batch_size
      = evaluate_batch ⟨tok, rg, bl, bert2⟩ predictions references false batch_size :=
  ⟨rfl, rfl, rfl, rfl, rfl, rfl, rfl, rfl, rfl, rfl⟩

/-! ## C10 -/

/-- C10: "phobert_vit5_paraphrase" is a member of `ModelType`;
`get_postprocessor` succeeds on it (with the phobert_vit5
postprocessor) while `get_preprocessor` fails with the unknown-model
error, so every summarization request selecting it fails at the
preprocessing step regardless of the inference collaborator. -/
theorem paraphrase_key_asymmetry :
    ModelType.phobert_vit5_paraphrase.value = "phobert_vit5_paraphrase" ∧
    get_postprocessor ModelType.phobert_vit5_paraphrase.value = .ok .phobert_vit5 ∧
    get_preprocessor ModelType.phobert_vit5_paraphrase.value
      = .error ("Unknown model type: phobert_vit5_paraphrase") ∧
    ∀ (colab : ColabPayload → Except String ColabResponse) (request : SummarizeRequest),
      request.model = .phobert_vit5_paraphrase →
      summarize colab request = .error ("Unknown model type: phobert_vit5_paraphrase") := by
  refine ⟨rfl, rfl, rfl, ?_⟩
  intro colab request h
  obtain ⟨text, model, maxLen⟩ := request
  cases h
  rfl

/-- C10 witness: a concrete paraphrase request fails at preprocessing
even though the collaborator would answer. -/
theorem paraphrase_key_asymmetry_witness :
    summarize (fun _ => .ok ⟨"Tóm tắt.", "phobert_vit5"⟩)
      ⟨"Một văn bản tiếng Việt đủ dài.", .phobert_vit5_paraphrase, 256⟩
      = .error ("Unknown model type: phobert_vit5_paraphrase") :=
  paraphrase_key_asymmetry.2.2.2 _ _ rfl

end FastColab
